import Mathlib

/-!
Shallow embedding of the `agari` Riichi Mahjong hand-evaluation engine
(crates/agari-core/src: tile.rs, hand.rs, shanten.rs, yaku.rs, scoring.rs,
main.rs; src/src: context.rs, wait.rs) together with theorems settling the
specification claims.

Tile multisets (`TileCounts` in Rust, a `BTreeMap<Tile, u8>`) are embedded as
34-entry count lists indexed by the canonical tile index (`tile_to_index`);
the derived `Ord` on the Rust `Tile` enum (Suited < Honor, suits Man < Pin <
Sou then value, honors in declaration order) coincides with the index order,
so iterating the map in key order is iterating indices in ascending order.
Machine integers are embedded as `Nat` (u8/u32: all values arising here stay
far below the wrap point) and `Int` (the `i8` shanten values).
-/

set_option maxRecDepth 4096

namespace Agari

/-- Suit of a suited tile (tile.rs `Suit`). -/
inductive Suit : Type
  | Man
  | Pin
  | Sou
  deriving DecidableEq, Repr

/-- Honor tiles (tile.rs `Honor`): four winds then three dragons. -/
inductive Honor : Type
  | East
  | South
  | West
  | North
  | White
  | Green
  | Red
  deriving DecidableEq, Repr

/-- A mahjong tile (tile.rs `Tile`): suited with value 1..9 or an honor. -/
inductive Tile : Type
  | Suited (suit : Suit) (value : Nat)
  | Honor (honor : Honor)
  deriving DecidableEq, Repr

namespace Tile

/-- tile.rs `Tile::is_simple`: suited with value 2..=8. -/
def isSimple : Tile → Bool
  | .Suited _ v => 2 ≤ v && v ≤ 8
  | .Honor _ => false

/-- tile.rs `Tile::is_terminal_or_honor`. -/
def isTerminalOrHonor : Tile → Bool
  | .Suited _ v => v == 1 || v == 9
  | .Honor _ => true

/-- tile.rs `Tile::is_terminal`. -/
def isTerminal : Tile → Bool
  | .Suited _ v => v == 1 || v == 9
  | .Honor _ => false

/-- tile.rs `Tile::is_honor`. -/
def isHonor : Tile → Bool
  | .Suited _ _ => false
  | .Honor _ => true

/-- tile.rs `Tile::is_dragon`. -/
def isDragon : Tile → Bool
  | .Honor .White | .Honor .Green | .Honor .Red => true
  | _ => false

/-- tile.rs `Tile::is_wind`. -/
def isWind : Tile → Bool
  | .Honor .East | .Honor .South | .Honor .West | .Honor .North => true
  | _ => false

/-- tile.rs `Tile::is_green`: sou 2,3,4,6,8 or the green dragon. -/
def isGreen : Tile → Bool
  | .Suited .Sou v => v == 2 || v == 3 || v == 4 || v == 6 || v == 8
  | .Honor .Green => true
  | _ => false

end Tile

/-- tile.rs `KOKUSHI_TILES`: the 13 terminal/honor tiles. -/
def kokushiTiles : List Tile :=
  [.Suited .Man 1, .Suited .Man 9, .Suited .Pin 1, .Suited .Pin 9,
   .Suited .Sou 1, .Suited .Sou 9,
   .Honor .East, .Honor .South, .Honor .West, .Honor .North,
   .Honor .White, .Honor .Green, .Honor .Red]

/-- shanten.rs `tile_to_index`: canonical dense index 0..33. -/
def tileToIndex : Tile → Nat
  | .Suited s v =>
    (match s with
     | .Man => 0
     | .Pin => 9
     | .Sou => 18) + (v - 1)
  | .Honor h =>
    27 + (match h with
          | .East => 0
          | .South => 1
          | .West => 2
          | .North => 3
          | .White => 4
          | .Green => 5
          | .Red => 6)

/-- shanten.rs `index_to_tile`: inverse of `tileToIndex` on 0..33. -/
def indexToTile (idx : Nat) : Tile :=
  if idx < 27 then
    let s : Suit := if idx / 9 = 0 then .Man else if idx / 9 = 1 then .Pin else .Sou
    .Suited s (idx % 9 + 1)
  else
    .Honor (match idx - 27 with
            | 0 => .East
            | 1 => .South
            | 2 => .West
            | 3 => .North
            | 4 => .White
            | 5 => .Green
            | _ => .Red)

/-- hand.rs `KanType`: closed, open, or added (promoted) quad. -/
inductive KanType : Type
  | Closed
  | Open
  | Added
  deriving DecidableEq, Repr

/-- hand.rs `KanType::is_open`. -/
def KanType.isOpen : KanType → Bool
  | .Closed => false
  | .Open | .Added => true

/-- hand.rs `Meld`: sequence (lowest tile, open flag), triplet (tile, open
flag), or quad (tile, kan type). -/
inductive Meld : Type
  | Shuntsu (t : Tile) (opened : Bool)
  | Koutsu (t : Tile) (opened : Bool)
  | Kan (t : Tile) (kt : KanType)
  deriving DecidableEq, Repr

namespace Meld

/-- hand.rs `Meld::is_open`. -/
def isOpen : Meld → Bool
  | .Shuntsu _ o => o
  | .Koutsu _ o => o
  | .Kan _ kt => kt.isOpen

/-- hand.rs `Meld::tile`. -/
def tile : Meld → Tile
  | .Shuntsu t _ => t
  | .Koutsu t _ => t
  | .Kan t _ => t

/-- hand.rs `Meld::is_triplet_or_kan`. -/
def isTripletOrKan : Meld → Bool
  | .Koutsu _ _ | .Kan _ _ => true
  | .Shuntsu _ _ => false

/-- hand.rs `Meld::is_sequence`. -/
def isSequence : Meld → Bool
  | .Shuntsu _ _ => true
  | _ => false

/-- hand.rs `Meld::is_concealed`. -/
def isConcealed (m : Meld) : Bool := !m.isOpen

end Meld

/-- hand.rs `HandStructure`: standard (4 melds + pair), seven pairs, or
thirteen orphans (stores the doubled tile). -/
inductive HandStructure : Type
  | Standard (melds : List Meld) (pair : Tile)
  | Chiitoitsu (pairs : List Tile)
  | Kokushi (pair : Tile)
  deriving DecidableEq, Repr

/-!  Count-array helpers.  A hand multiset is a 34-entry list of counts. -/

/-- Count of the tile at index `i` (0 when out of range, matching an absent
key in the Rust `BTreeMap`). -/
def cget (l : List Nat) (i : Nat) : Nat := l.getD i 0

/-- Replace the count at index `i`. -/
def cset (l : List Nat) (i v : Nat) : List Nat := l.set i v

theorem length_cset (l : List Nat) (i v : Nat) : (cset l i v).length = l.length :=
  List.length_set ..

theorem cget_nil (i : Nat) : cget [] i = 0 := by cases i <;> rfl

theorem cget_cons_zero (a : Nat) (t : List Nat) : cget (a :: t) 0 = a := rfl

theorem cget_cons_succ (a : Nat) (t : List Nat) (i : Nat) :
    cget (a :: t) (i + 1) = cget t i := by
  simp [cget]

theorem cset_cons_zero (a : Nat) (t : List Nat) (v : Nat) :
    cset (a :: t) 0 v = v :: t := rfl

theorem cset_cons_succ (a : Nat) (t : List Nat) (i v : Nat) :
    cset (a :: t) (i + 1) v = a :: cset t i v := rfl

theorem cget_cset (l : List Nat) (i j v : Nat) :
    cget (cset l i v) j = if i = j ∧ j < l.length then v else cget l j := by
  induction l generalizing i j with
  | nil => simp [cget_nil, cset]
  | cons a t ih =>
    cases i with
    | zero =>
      cases j with
      | zero => simp [cset_cons_zero, cget_cons_zero]
      | succ j => simp [cset_cons_zero, cget_cons_succ]
    | succ i =>
      cases j with
      | zero => simp [cset_cons_succ, cget_cons_zero]
      | succ j =>
        rw [cset_cons_succ, cget_cons_succ, cget_cons_succ, ih i j]
        by_cases h : i = j ∧ j < t.length
        · simp only [h.1, h.2, and_self, if_true, List.length_cons]
          simp [h.1, Nat.succ_lt_succ h.2]
        · have h2 : ¬(i + 1 = j + 1 ∧ j + 1 < (a :: t).length) := by
            intro ⟨h1, hlt⟩
            exact h ⟨Nat.succ_injective h1, by simpa using Nat.lt_of_succ_lt_succ hlt⟩
          simp [h, h2]

theorem cget_eq_zero_of_ge (l : List Nat) (i : Nat) (h : l.length ≤ i) : cget l i = 0 := by
  induction l generalizing i with
  | nil => exact cget_nil i
  | cons a t ih =>
    cases i with
    | zero => simp at h
    | succ i => rw [cget_cons_succ]; exact ih i (by simpa using h)

theorem sum_cset (l : List Nat) (i v : Nat) (h : i < l.length) :
    (cset l i v).sum + cget l i = l.sum + v := by
  induction l generalizing i with
  | nil => simp at h
  | cons a t ih =>
    cases i with
    | zero => simp [cset_cons_zero, cget_cons_zero, List.sum_cons]; omega
    | succ i =>
      rw [cset_cons_succ, cget_cons_succ, List.sum_cons, List.sum_cons]
      have := ih i (Nat.lt_of_succ_lt_succ h)
      omega

theorem cget_le_sum (l : List Nat) (i : Nat) : cget l i ≤ l.sum := by
  induction l generalizing i with
  | nil => simp [cget_nil]
  | cons a t ih =>
    cases i with
    | zero => rw [cget_cons_zero, List.sum_cons]; omega
    | succ i =>
      rw [cget_cons_succ, List.sum_cons]
      have := ih i
      omega

theorem sum_eq_zero_cget (l : List Nat) (h : l.sum = 0) (i : Nat) : cget l i = 0 :=
  Nat.le_zero.mp (h ▸ cget_le_sum l i)

end Agari

namespace Agari

/-!  hand.rs: the hand decomposer. -/

/-- hand.rs `find_all_meld_combinations`: all ways to form exactly `needed`
melds from `counts`.  The Rust function works on a `BTreeMap` and pops its
smallest key; in the array embedding that is the least index with a positive
count (`retain` of zero entries is a no-op here, and `is_empty` is `sum = 0`).
Triplet results are collected before sequence results, as in the source. -/
def findAllMeldCombinations : List Nat → Nat → List (List Meld)
  | counts, 0 => if counts.sum = 0 then [[]] else []
  | counts, needed + 1 =>
    if counts.sum = 0 then []
    else
      let idx := counts.findIdx (fun c => c != 0)
      let tripletResults :=
        if 3 ≤ cget counts idx then
          (findAllMeldCombinations (cset counts idx (cget counts idx - 3)) needed).map
            (fun sub => Meld.Koutsu (indexToTile idx) false :: sub)
        else []
      let seqResults :=
        if idx < 27 ∧ idx % 9 ≤ 6 then
          if 1 ≤ cget counts (idx + 1) ∧ 1 ≤ cget counts (idx + 2) then
            let afterSeq := cset (cset (cset counts idx (cget counts idx - 1))
              (idx + 1) (cget counts (idx + 1) - 1)) (idx + 2) (cget counts (idx + 2) - 1)
            (findAllMeldCombinations afterSeq needed).map
              (fun sub => Meld.Shuntsu (indexToTile idx) false :: sub)
          else []
        else []
      tripletResults ++ seqResults

/-- hand.rs `is_chiitoitsu`: exactly seven distinct tiles, each of count 2. -/
def isChiitoitsu (counts : List Nat) : Bool :=
  (counts.filter (fun c => c != 0)).length == 7 &&
    (counts.filter (fun c => c != 0)).all (fun c => c == 2)

/-- hand.rs `check_kokushi` pair-finding loop: at most one tile of count 2
and none above 2, aborting (outer `none`) otherwise. -/
def kokushiPairLoop (counts : List Nat) : List Tile → Option Tile → Option (Option Tile)
  | [], acc => some acc
  | t :: rest, acc =>
    let c := cget counts (tileToIndex t)
    if c = 2 then
      match acc with
      | some _ => none
      | none => kokushiPairLoop counts rest (some t)
    else if 2 < c then none
    else kokushiPairLoop counts rest acc

/-- hand.rs `check_kokushi`: thirteen orphans check, returning the doubled
tile.  The keys of the Rust map are the indices with a positive count. -/
def checkKokushi (counts : List Nat) : Option Tile :=
  if counts.sum ≠ 14 then none
  else if kokushiTiles.any (fun t => cget counts (tileToIndex t) == 0) then none
  else if (List.range counts.length).any
      (fun i => cget counts i != 0 && !(indexToTile i).isTerminalOrHonor) then none
  else
    match kokushiPairLoop counts kokushiTiles none with
    | none => none
    | some p => p

/-- Order used for hand.rs `melds.sort_by_key(|m| m.tile())`: the derived
`Ord` on the Rust `Tile` coincides with the canonical index order. -/
def meldTileLE (a b : Meld) : Prop := tileToIndex a.tile ≤ tileToIndex b.tile

instance : DecidableRel meldTileLE := fun a b =>
  inferInstanceAs (Decidable (tileToIndex a.tile ≤ tileToIndex b.tile))

/-- hand.rs `decompose_hand`: all decompositions of a 14-tile multiset.
The Rust function finally sorts the result list by its Debug string and
`dedup`s; that step permutes the list and removes duplicates, leaving the set
of decompositions unchanged, so it is omitted (all theorems below are about
membership).  The `pairs.sort()` of the chiitoitsu branch is the identity
here because the keys are collected in ascending index order already. -/
def decomposeHand (counts : List Nat) : List HandStructure :=
  let kokushiPart :=
    match checkKokushi counts with
    | some pair => [HandStructure.Kokushi pair]
    | none => []
  let chiitoiPart :=
    if isChiitoitsu counts then
      [HandStructure.Chiitoitsu
        (((List.range counts.length).filter (fun i => cget counts i != 0)).map indexToTile)]
    else []
  let standardPart := (List.range counts.length).foldl (fun acc i =>
    if 2 ≤ cget counts i then
      let remaining := cset counts i (cget counts i - 2)
      let combos := findAllMeldCombinations remaining 4
      acc ++ combos.map (fun melds =>
        HandStructure.Standard (melds.insertionSort meldTileLE) (indexToTile i))
    else acc) []
  kokushiPart ++ chiitoiPart ++ standardPart

/-- hand.rs `decompose_hand_with_melds`: decompositions of the remaining hand
tiles around fixed called melds (standard shape only).  `4 - called.len()`
assumes at most four called melds, as in every caller.  Sort/dedup omitted as
in `decomposeHand`. -/
def decomposeHandWithMelds (handTiles : List Nat) (calledMelds : List Meld) :
    List HandStructure :=
  let meldsNeeded := 4 - calledMelds.length
  (List.range handTiles.length).foldl (fun acc i =>
    if 2 ≤ cget handTiles i then
      let remaining := cset handTiles i (cget handTiles i - 2)
      let combos := findAllMeldCombinations remaining meldsNeeded
      acc ++ combos.map (fun handMelds =>
        HandStructure.Standard ((calledMelds ++ handMelds).insertionSort meldTileLE)
          (indexToTile i))
    else acc) []

/-!  shanten.rs: the shanten calculator.  The Rust code converts the tile map
to a dense `[u8; 34]` array; the embedding works on that array directly. -/

/-- shanten.rs `extract_melds_sequences_first`, inner while loop at one index:
repeatedly taking one tile from each of `i`, `i+1`, `i+2` while all three are
positive removes exactly the minimum of the three counts.  The three updates
touch distinct indices, so reading the original counts is equivalent. -/
def extractSeqsAt (l : List Nat) (i : Nat) : Nat × List Nat :=
  let n := min (cget l i) (min (cget l (i + 1)) (cget l (i + 2)))
  (n, cset (cset (cset l i (cget l i - n)) (i + 1) (cget l (i + 1) - n))
        (i + 2) (cget l (i + 2) - n))

/-- Sequence-extraction pass over `fuel` consecutive start indices
(shanten.rs `for i in start..(start + 7)`). -/
def extractSeqsLoop : List Nat → Nat → Nat → Nat × List Nat
  | l, _, 0 => (0, l)
  | l, i, fuel + 1 =>
    let (n, l2) := extractSeqsAt l i
    let (m, l3) := extractSeqsLoop l2 (i + 1) fuel
    (n + m, l3)

/-- Triplet-extraction pass (shanten.rs `while *count >= 3`): each index
yields `count / 3` triplets, leaving `count % 3`. -/
def extractTripsLoop : List Nat → Nat → Nat → Nat × List Nat
  | l, _, 0 => (0, l)
  | l, i, fuel + 1 =>
    let n := cget l i / 3
    let l2 := cset l i (cget l i - 3 * n)
    let (m, l3) := extractTripsLoop l2 (i + 1) fuel
    (n + m, l3)

/-- shanten.rs `extract_melds_sequences_first` for the 9-entry suit block at
`start`. -/
def extractMeldsSequencesFirst (l : List Nat) (start : Nat) : Nat × List Nat :=
  let (m1, l1) := extractSeqsLoop l start 7
  let (m2, l2) := extractTripsLoop l1 start 9
  (m1 + m2, l2)

/-- shanten.rs `extract_melds_triplets_first`. -/
def extractMeldsTripletsFirst (l : List Nat) (start : Nat) : Nat × List Nat :=
  let (m1, l1) := extractTripsLoop l start 9
  let (m2, l2) := extractSeqsLoop l1 start 7
  (m1 + m2, l2)

/-- Taatsu pass for pairs (shanten.rs: a single `if *count >= 2` per index). -/
def pairsLoop : List Nat → Nat → Nat → Nat × List Nat
  | l, _, 0 => (0, l)
  | l, i, fuel + 1 =>
    let (t, l2) := if 2 ≤ cget l i then (1, cset l i (cget l i - 2)) else (0, l)
    let (m, l3) := pairsLoop l2 (i + 1) fuel
    (t + m, l3)

/-- Taatsu pass for adjacent partial sequences (shanten.rs ryanmen/penchan). -/
def adjLoop : List Nat → Nat → Nat → Nat × List Nat
  | l, _, 0 => (0, l)
  | l, i, fuel + 1 =>
    let (t, l2) :=
      if 1 ≤ cget l i ∧ 1 ≤ cget l (i + 1) then
        (1, cset (cset l i (cget l i - 1)) (i + 1) (cget l (i + 1) - 1))
      else (0, l)
    let (m, l3) := adjLoop l2 (i + 1) fuel
    (t + m, l3)

/-- Taatsu pass for gap partial sequences (shanten.rs kanchan). -/
def kanchanLoop : List Nat → Nat → Nat → Nat × List Nat
  | l, _, 0 => (0, l)
  | l, i, fuel + 1 =>
    let (t, l2) :=
      if 1 ≤ cget l i ∧ 1 ≤ cget l (i + 2) then
        (1, cset (cset l i (cget l i - 1)) (i + 2) (cget l (i + 2) - 1))
      else (0, l)
    let (m, l3) := kanchanLoop l2 (i + 1) fuel
    (t + m, l3)

/-- shanten.rs `count_suit_melds`: best of the two extraction orders
(`m1 >= m2` prefers sequences-first), then the three taatsu passes. -/
def countSuitMelds (l : List Nat) (start : Nat) : Nat × Nat × List Nat :=
  let (m1, r1) := extractMeldsSequencesFirst l start
  let (m2, r2) := extractMeldsTripletsFirst l start
  let (melds, rem) := if m2 ≤ m1 then (m1, r1) else (m2, r2)
  let (t1, rem1) := pairsLoop rem start 9
  let (t2, rem2) := adjLoop rem1 start 8
  let (t3, rem3) := kanchanLoop rem2 start 7
  (melds, t1 + t2 + t3, rem3)

/-- shanten.rs honors part of `count_melds_and_taatsu`: per honor index one
triplet (`if >= 3`) then one pair taatsu (`if >= 2`). -/
def honorsLoop : List Nat → Nat → Nat → Nat × Nat × List Nat
  | l, _, 0 => (0, 0, l)
  | l, i, fuel + 1 =>
    let (m, l2) := if 3 ≤ cget l i then (1, cset l i (cget l i - 3)) else (0, l)
    let (t, l3) := if 2 ≤ cget l2 i then (1, cset l2 i (cget l2 i - 2)) else (0, l2)
    let (ms, ts, l4) := honorsLoop l3 (i + 1) fuel
    (m + ms, t + ts, l4)

/-- shanten.rs `count_melds_and_taatsu`: the three suit blocks then the seven
honor indices. -/
def countMeldsAndTaatsu (l : List Nat) : Nat × Nat :=
  let (mM, tM, l1) := countSuitMelds l 0
  let (mP, tP, l2) := countSuitMelds l1 9
  let (mS, tS, l3) := countSuitMelds l2 18
  let (mH, tH, _) := honorsLoop l3 27 7
  (mM + mP + mS + mH, tM + tP + tS + tH)

/-- shanten.rs `calculate_shanten_value_with_called`. -/
def shantenValueWithCalled (melds taatsu : Nat) (hasPair : Bool)
    (calledMelds tileDeficit : Nat) : Int :=
  let totalMelds := melds + calledMelds
  if 4 ≤ totalMelds ∧ hasPair = true ∧ tileDeficit = 0 then -1
  else
    let maxUsefulTaatsu := 4 - totalMelds
    let usefulTaatsu := min taatsu maxUsefulTaatsu
    let sh0 : Int := 8 - 2 * (min totalMelds 4 : Int) - (usefulTaatsu : Int)
    let sh1 := if hasPair then sh0 - 1 else sh0
    let totalBlocks := min totalMelds 4 + usefulTaatsu
    let sh2 := if 4 < totalBlocks then sh1 + ((totalBlocks - 4 : Nat) : Int) else sh1
    if 0 ≤ sh2 then max sh2 (tileDeficit : Int) else sh2

/-- shanten.rs minimum hand-tile count for tenpai with `calledMelds` called
melds (`1` for four or more called melds, else `13 - 3k` with saturating
subtraction). -/
def minTenpaiTiles (calledMelds : Nat) : Nat :=
  if 4 ≤ calledMelds then 1 else 13 - 3 * calledMelds

/-- shanten.rs `calculate_standard_shanten_with_melds`: best over the no-pair
branch and one branch per extractable pair, starting from the cap of 8. -/
def calculateStandardShantenWithMelds (l : List Nat) (calledMelds : Nat) : Int :=
  let tileDeficit := minTenpaiTiles calledMelds - l.sum
  let (m0, t0) := countMeldsAndTaatsu l
  let b0 := min 8 (shantenValueWithCalled m0 t0 false calledMelds tileDeficit)
  (List.range 34).foldl (fun best i =>
    if 2 ≤ cget l i then
      let l2 := cset l i (cget l i - 2)
      let (m, t) := countMeldsAndTaatsu l2
      min best (shantenValueWithCalled m t true calledMelds tileDeficit)
    else best) b0

/-- shanten.rs `calculate_chiitoitsu_shanten`. -/
def calculateChiitoitsuShanten (l : List Nat) : Int :=
  let pairs := (l.filter (fun c => 2 ≤ c)).length
  let uniqueTiles := (l.filter (fun c => 1 ≤ c)).length
  6 - (pairs : Int) + max (7 - (uniqueTiles : Int)) 0

/-- shanten.rs `calculate_kokushi_shanten`. -/
def calculateKokushiShanten (l : List Nat) : Int :=
  let ut := (kokushiTiles.filter (fun t => 1 ≤ cget l (tileToIndex t))).length
  let hasPair := kokushiTiles.any (fun t => 2 ≤ cget l (tileToIndex t))
  13 - (ut : Int) - (if hasPair then 1 else 0)

/-- shanten.rs `ShantenType`. -/
inductive ShantenType : Type
  | Standard
  | Chiitoitsu
  | Kokushi
  deriving DecidableEq, Repr

/-- shanten.rs `ShantenResult`. -/
structure ShantenResult : Type where
  shanten : Int
  bestType : ShantenType
  deriving DecidableEq, Repr

/-- shanten.rs `calculate_shanten_with_melds`: standard only when melds are
called, otherwise the minimum of the three shapes with the source's
tie-breaking order. -/
def calculateShantenWithMelds (l : List Nat) (calledMelds : Nat) : ShantenResult :=
  let standard := calculateStandardShantenWithMelds l calledMelds
  if calledMelds ≠ 0 then ⟨standard, .Standard⟩
  else
    let chiitoi := calculateChiitoitsuShanten l
    let kokushi := calculateKokushiShanten l
    if standard ≤ chiitoi ∧ standard ≤ kokushi then ⟨standard, .Standard⟩
    else if chiitoi ≤ kokushi then ⟨chiitoi, .Chiitoitsu⟩
    else ⟨kokushi, .Kokushi⟩

/-- shanten.rs `calculate_shanten`. -/
def calculateShanten (l : List Nat) : ShantenResult := calculateShantenWithMelds l 0

/-- shanten.rs `UkeireTile`. -/
structure UkeireTile : Type where
  tile : Tile
  available : Nat
  deriving DecidableEq, Repr

/-- shanten.rs `UkeireResult`. -/
structure UkeireResult : Type where
  shanten : Int
  tiles : List UkeireTile
  totalCount : Nat
  deriving DecidableEq, Repr

/-- shanten.rs `calculate_ukeire_with_melds`: try each of the 34 tiles not
already at four copies and keep those that strictly lower the shanten. -/
def calculateUkeireWithMelds (l : List Nat) (calledMelds : Nat) : UkeireResult :=
  let current := calculateShantenWithMelds l calledMelds
  let acc := (List.range 34).foldl (fun acc idx =>
    let c := cget l idx
    if 4 ≤ c then acc
    else
      let testCounts := cset l idx (c + 1)
      let newShanten := calculateShantenWithMelds testCounts calledMelds
      if newShanten.shanten < current.shanten then
        (acc.1 ++ [UkeireTile.mk (indexToTile idx) (4 - c)], acc.2 + (4 - c))
      else acc) (([] : List UkeireTile), 0)
  ⟨current.shanten, acc.1, acc.2⟩

/-- shanten.rs `calculate_ukeire`. -/
def calculateUkeire (l : List Nat) : UkeireResult := calculateUkeireWithMelds l 0

end Agari

namespace Agari

/-!  context.rs (src/src/context.rs): game context and dora mapping. -/

/-- context.rs `WinType`. -/
inductive WinType : Type
  | Ron
  | Tsumo
  deriving DecidableEq, Repr

/-- context.rs `GameContext`. -/
structure GameContext : Type where
  winType : WinType
  winningTile : Option Tile
  roundWind : Honor
  seatWind : Honor
  isOpen : Bool
  isRiichi : Bool
  isDoubleRiichi : Bool
  isIppatsu : Bool
  isRinshan : Bool
  isChankan : Bool
  isLastTile : Bool
  isTenhou : Bool
  isChiihou : Bool
  doraIndicators : List Tile
  uraDoraIndicators : List Tile
  akaCount : Nat
  deriving DecidableEq, Repr

/-- context.rs `GameContext::new`. -/
def GameContext.new (wt : WinType) (rw sw : Honor) : GameContext :=
  ⟨wt, none, rw, sw, false, false, false, false, false, false, false, false, false,
   [], [], 0⟩

/-- context.rs `GameContext::is_dealer`: seat wind is East. -/
def GameContext.isDealer (ctx : GameContext) : Bool := decide (ctx.seatWind = Honor.East)

/-- context.rs `GameContext::is_value_wind`. -/
def GameContext.isValueWind (ctx : GameContext) (w : Honor) : Bool :=
  decide (w = ctx.roundWind) || decide (w = ctx.seatWind)

/-- context.rs `indicator_to_dora`: suited wraps 9 to 1, winds cycle
E-S-W-N-E, dragons cycle White-Green-Red-White. -/
def indicatorToDora : Tile → Tile
  | .Suited s v => .Suited s (if v = 9 then 1 else v + 1)
  | .Honor h =>
    .Honor (match h with
            | .East => .South
            | .South => .West
            | .West => .North
            | .North => .East
            | .White => .Green
            | .Green => .Red
            | .Red => .White)

/-- context.rs `count_dora`: regular dora per indicator, ura only with
riichi, plus the red-five count. -/
def countDora (counts : List Nat) (ctx : GameContext) : Nat :=
  (ctx.doraIndicators.map (fun ind => cget counts (tileToIndex (indicatorToDora ind)))).sum
    + (if ctx.isRiichi then
        (ctx.uraDoraIndicators.map (fun ind => cget counts (tileToIndex (indicatorToDora ind)))).sum
      else 0)
    + ctx.akaCount

/-- Modelled from the spec: `DoraBreakdown`, the result type of the
agari-core `context` module's `count_dora_detailed`, whose source is not in
the repository snapshot (only `count_dora` of src/src/context.rs is).  The
spec output record lists "the dora breakdown (regular / underneath /
red-five / sum)". -/
structure DoraBreakdown : Type where
  regular : Nat
  ura : Nat
  aka : Nat
  deriving DecidableEq, Repr

/-- Sum of the three dora components. -/
def DoraBreakdown.total (d : DoraBreakdown) : Nat := d.regular + d.ura + d.aka

/-- Modelled from the spec: `count_dora_detailed` of the agari-core `context`
module (source missing from the snapshot; only its callers are present).
Spec §4.6 step 3: "for each regular indicator, add the count of the
resulting dora tile in the full multiset; same for underneath indicators if
and only if riichi is declared; add the red-five count", mirroring
`count_dora` of src/src/context.rs with the three parts kept separate. -/
def countDoraDetailed (counts : List Nat) (ctx : GameContext) : DoraBreakdown :=
  ⟨(ctx.doraIndicators.map (fun ind => cget counts (tileToIndex (indicatorToDora ind)))).sum,
   (if ctx.isRiichi then
      (ctx.uraDoraIndicators.map (fun ind => cget counts (tileToIndex (indicatorToDora ind)))).sum
    else 0),
   ctx.akaCount⟩

/-!  wait.rs (src/src/wait.rs): wait classification and pinfu. -/

/-- wait.rs `WaitType`. -/
inductive WaitType : Type
  | Ryanmen
  | Kanchan
  | Penchan
  | Shanpon
  | Tanki
  | Kokushi13
  deriving DecidableEq, Repr

/-- wait.rs `WaitType::fu`. -/
def WaitType.fu : WaitType → Nat
  | .Ryanmen => 0
  | .Shanpon => 0
  | .Kanchan => 2
  | .Penchan => 2
  | .Tanki => 2
  | .Kokushi13 => 0

/-- wait.rs `wait_type_for_shuntsu_position`. -/
def waitTypeForShuntsuPosition (startVal winningVal : Nat) : WaitType :=
  if winningVal = startVal then
    if startVal + 2 = 9 then .Penchan else .Ryanmen
  else if winningVal = startVal + 1 then .Kanchan
  else if startVal = 1 then .Penchan
  else .Ryanmen

/-- wait.rs `check_shuntsu_wait`. -/
def checkShuntsuWait (startTile winningTile : Tile) : Option WaitType :=
  match startTile, winningTile with
  | .Suited s sv, .Suited ws wv =>
    if s ≠ ws then none
    else if wv < sv ∨ sv + 2 < wv then none
    else some (waitTypeForShuntsuPosition sv wv)
  | _, _ => none

/-- wait.rs `detect_wait_types`. -/
def detectWaitTypes (s : HandStructure) (winningTile : Tile) : List WaitType :=
  match s with
  | .Chiitoitsu pairs =>
    if pairs.any (fun t => decide (t = winningTile)) then [.Tanki] else []
  | .Kokushi pair =>
    if pair = winningTile then [.Tanki] else [.Kokushi13]
  | .Standard melds pair =>
    (if pair = winningTile then [WaitType.Tanki] else []) ++
      melds.flatMap (fun m =>
        match m with
        | .Koutsu t _ => if t = winningTile then [WaitType.Shanpon] else []
        | .Shuntsu start _ =>
          match checkShuntsuWait start winningTile with
          | some wt => [wt]
          | none => []
        | .Kan _ _ => [])

/-- wait.rs `is_yakuhai_pair`: dragons always, winds when they match the
round or seat wind. -/
def isYakuhaiPair (pair : Tile) (ctx : GameContext) : Bool :=
  match pair with
  | .Honor h =>
    match h with
    | .White | .Green | .Red => true
    | w => decide (w = ctx.roundWind) || decide (w = ctx.seatWind)
  | .Suited _ _ => false

/-- wait.rs `is_pinfu`: closed hand, standard shape, all sequences,
non-yakuhai pair, and a two-sided (ryanmen) wait on the winning tile. -/
def isPinfu (s : HandStructure) (winningTile : Tile) (ctx : GameContext) : Bool :=
  if ctx.isOpen then false
  else
    match s with
    | .Chiitoitsu _ => false
    | .Kokushi _ => false
    | .Standard melds pair =>
      if !melds.all (·.isSequence) then false
      else if isYakuhaiPair pair ctx then false
      else (detectWaitTypes s winningTile).contains WaitType.Ryanmen

/-- Priority used by the best-wait selection: lower is preferred among equal
fu (two-sided first, to enable pinfu). -/
def WaitType.priority : WaitType → Nat
  | .Ryanmen => 0
  | .Shanpon => 1
  | .Kanchan => 2
  | .Penchan => 3
  | .Tanki => 4
  | .Kokushi13 => 5

/-- Modelled from the spec: `best_wait_type_for_scoring` of the agari-core
`wait` module, whose source is not in the repository snapshot (only its
callers are).  Spec §4.5: "The best wait for scoring is the lowest-fu wait,
with ties broken to prefer two-sided (to enable pinfu)", which is exactly
`best_wait_type` of src/src/wait.rs: the minimum of the detected wait types
by the key (fu, priority), the first minimum winning ties. -/
def bestWaitTypeForScoring (s : HandStructure) (winningTile : Tile) : Option WaitType :=
  (detectWaitTypes s winningTile).foldl (fun acc w =>
    match acc with
    | none => some w
    | some b => if w.fu * 6 + w.priority < b.fu * 6 + b.priority then some w else acc) none

/-!  yaku.rs: scoring-pattern detection. -/

/-- yaku.rs `Yaku`: every scoring pattern. -/
inductive Yaku : Type
  | Riichi
  | Ippatsu
  | MenzenTsumo
  | Tanyao
  | Pinfu
  | Iipeikou
  | Yakuhai (h : Honor)
  | RinshanKaihou
  | Chankan
  | HaiteiRaoyue
  | HouteiRaoyui
  | DoubleRiichi
  | Toitoi
  | SanshokuDoujun
  | SanshokuDoukou
  | Ittsu
  | Chiitoitsu
  | Chanta
  | SanAnkou
  | SanKantsu
  | Honroutou
  | Shousangen
  | Honitsu
  | Junchan
  | Ryanpeikou
  | Chinitsu
  | Tenhou
  | Chiihou
  | KokushiMusou
  | Suuankou
  | Daisangen
  | Shousuushii
  | Daisuushii
  | Tsuuiisou
  | Chinroutou
  | Ryuuiisou
  | ChuurenPoutou
  | Kokushi13Wait
  | SuuankouTanki
  | JunseiChuurenPoutou
  deriving DecidableEq, Repr

namespace Yaku

/-- yaku.rs `Yaku::han`: base (closed-hand) han values; yakuman count 13,
double yakuman 26. -/
def han : Yaku → Nat
  | .Riichi | .Ippatsu | .MenzenTsumo | .Tanyao | .Pinfu | .Iipeikou
  | .Yakuhai _ | .RinshanKaihou | .Chankan | .HaiteiRaoyue | .HouteiRaoyui => 1
  | .DoubleRiichi | .Toitoi | .SanshokuDoujun | .SanshokuDoukou | .Ittsu
  | .Chiitoitsu | .Chanta | .SanAnkou | .SanKantsu | .Honroutou | .Shousangen => 2
  | .Honitsu | .Junchan | .Ryanpeikou => 3
  | .Chinitsu => 6
  | .Tenhou | .Chiihou | .KokushiMusou | .Suuankou | .Daisangen | .Shousuushii
  | .Daisuushii | .Tsuuiisou | .Chinroutou | .Ryuuiisou | .ChuurenPoutou => 13
  | .Kokushi13Wait | .SuuankouTanki | .JunseiChuurenPoutou => 26

/-- yaku.rs `Yaku::han_open`: `none` for closed-only patterns, reduced han
for some others. -/
def hanOpen : Yaku → Option Nat
  | .Riichi | .DoubleRiichi | .Ippatsu | .MenzenTsumo | .Pinfu | .Iipeikou
  | .Ryanpeikou | .Tenhou | .Chiihou | .Suuankou | .SuuankouTanki
  | .ChuurenPoutou | .JunseiChuurenPoutou | .KokushiMusou | .Kokushi13Wait => none
  | .SanshokuDoujun => some 1
  | .Ittsu => some 1
  | .Chanta => some 1
  | .Honitsu => some 2
  | .Junchan => some 2
  | .Chinitsu => some 5
  | .Tanyao => some 1
  | .Yakuhai _ => some 1
  | .RinshanKaihou => some 1
  | .Chankan => some 1
  | .HaiteiRaoyue => some 1
  | .HouteiRaoyui => some 1
  | .Toitoi => some 2
  | .SanshokuDoukou => some 2
  | .Chiitoitsu => some 2
  | .SanAnkou => some 2
  | .SanKantsu => some 2
  | .Honroutou => some 2
  | .Shousangen => some 2
  | .Daisangen => some 13
  | .Shousuushii => some 13
  | .Daisuushii => some 13
  | .Tsuuiisou => some 13
  | .Chinroutou => some 13
  | .Ryuuiisou => some 13

/-- yaku.rs `Yaku::valid_when_open`. -/
def validWhenOpen (y : Yaku) : Bool := y.hanOpen.isSome

/-- yaku.rs `Yaku::is_yakuman`. -/
def isYakuman : Yaku → Bool
  | .Tenhou | .Chiihou | .KokushiMusou | .Kokushi13Wait | .Suuankou
  | .SuuankouTanki | .Daisangen | .Shousuushii | .Daisuushii | .Tsuuiisou
  | .Chinroutou | .Ryuuiisou | .ChuurenPoutou | .JunseiChuurenPoutou => true
  | _ => false

end Yaku

/-- yaku.rs `YakuResult`. -/
structure YakuResult : Type where
  yakuList : List Yaku
  totalHan : Nat
  doraCount : Nat
  regularDora : Nat
  uraDora : Nat
  akaDora : Nat
  isYakuman : Bool
  deriving DecidableEq, Repr

/-- yaku.rs `YakuResult::total_han_with_dora`: dora is not added to yakuman
hands. -/
def YakuResult.totalHanWithDora (r : YakuResult) : Nat :=
  if r.isYakuman then r.totalHan else r.totalHan + r.doraCount

/-- yaku.rs `collect_all_tiles`: pair twice, then each meld's tiles in
order (a sequence whose stored tile is an honor contributes only it, as in
the source's `if let`). -/
def collectAllTiles (melds : List Meld) (pair : Tile) : List Tile :=
  [pair, pair] ++ melds.flatMap (fun m =>
    match m with
    | .Koutsu t _ => [t, t, t]
    | .Shuntsu t _ =>
      match t with
      | .Suited s v => [.Suited s v, .Suited s (v + 1), .Suited s (v + 2)]
      | .Honor h => [.Honor h]
    | .Kan t _ => [t, t, t, t])

/-- yaku.rs `check_peikou`: number of distinct sequences occurring at least
twice decides ryanpeikou / iipeikou. -/
def checkPeikou (melds : List Meld) : Option Yaku :=
  let sequences := melds.filterMap (fun m =>
    match m with
    | .Shuntsu t _ => some t
    | _ => none)
  if sequences.length < 2 then none
  else
    let pairsOfSequences :=
      (sequences.dedup.filter (fun t => 2 ≤ sequences.count t)).length
    if 2 ≤ pairsOfSequences then some .Ryanpeikou
    else if pairsOfSequences = 1 then some .Iipeikou
    else none

/-- Wind test used by yakuhai and the four-winds checks. -/
def Honor.isWindHonor : Honor → Bool
  | .East | .South | .West | .North => true
  | _ => false

/-- yaku.rs `check_yakuhai`: dragon triplets/kans always, wind triplets/kans
once per matching role (round and seat stack). -/
def checkYakuhai (melds : List Meld) (ctx : GameContext) : List Yaku :=
  melds.flatMap (fun m =>
    let honor : Option Honor :=
      match m with
      | .Koutsu (.Honor h) _ => some h
      | .Kan (.Honor h) _ => some h
      | _ => none
    match honor with
    | none => []
    | some h =>
      match h with
      | .White | .Green | .Red => [Yaku.Yakuhai h]
      | w =>
        (if w = ctx.roundWind then [Yaku.Yakuhai w] else []) ++
          (if w = ctx.seatWind then [Yaku.Yakuhai w] else []))

/-- Sequence (suit, start value) list used by the sanshoku and ittsu
checks. -/
def sequenceKeys (melds : List Meld) : List (Suit × Nat) :=
  melds.filterMap (fun m =>
    match m with
    | .Shuntsu (.Suited s v) _ => some (s, v)
    | _ => none)

/-- yaku.rs `check_sanshoku`: some start value whose group holds all three
suits. -/
def checkSanshoku (melds : List Meld) : Bool :=
  let seqs := sequenceKeys melds
  seqs.any (fun q =>
    seqs.any (fun r => decide (r.1 = Suit.Man) && decide (r.2 = q.2)) &&
    seqs.any (fun r => decide (r.1 = Suit.Pin) && decide (r.2 = q.2)) &&
    seqs.any (fun r => decide (r.1 = Suit.Sou) && decide (r.2 = q.2)))

/-- yaku.rs `check_ittsu`: some suit holding sequences starting at 1, 4 and
7. -/
def checkIttsu (melds : List Meld) : Bool :=
  let seqs := sequenceKeys melds
  [Suit.Man, Suit.Pin, Suit.Sou].any (fun s =>
    seqs.any (fun r => decide (r.1 = s) && decide (r.2 = 1)) &&
    seqs.any (fun r => decide (r.1 = s) && decide (r.2 = 4)) &&
    seqs.any (fun r => decide (r.1 = s) && decide (r.2 = 7)))

/-- yaku.rs `check_chanta`. -/
def checkChanta (melds : List Meld) (pair : Tile) : Bool :=
  if !pair.isTerminalOrHonor then false
  else if !melds.any (·.isSequence) then false
  else melds.all (fun m =>
    match m with
    | .Koutsu t _ => t.isTerminalOrHonor
    | .Kan t _ => t.isTerminalOrHonor
    | .Shuntsu (.Suited _ v) _ => decide (v = 1) || decide (v = 7)
    | .Shuntsu (.Honor _) _ => true)

/-- yaku.rs `check_junchan`. -/
def checkJunchan (melds : List Meld) (pair : Tile) : Bool :=
  let pairOk :=
    match pair with
    | .Suited _ v => decide (v = 1) || decide (v = 9)
    | .Honor _ => false
  if !pairOk then false
  else if !melds.any (·.isSequence) then false
  else melds.all (fun m =>
    match m with
    | .Koutsu (.Suited _ v) _ => decide (v = 1) || decide (v = 9)
    | .Kan (.Suited _ v) _ => decide (v = 1) || decide (v = 9)
    | .Koutsu (.Honor _) _ => false
    | .Kan (.Honor _) _ => false
    | .Shuntsu (.Suited _ v) _ => decide (v = 1) || decide (v = 7)
    | .Shuntsu (.Honor _) _ => false)

/-- yaku.rs `check_flush_tiles` fold: first suit seen, honors flag, abort on
a second suit. -/
def flushFold : List Tile → Option Suit → Bool → Option (Option Suit × Bool)
  | [], fs, hh => some (fs, hh)
  | t :: rest, fs, hh =>
    match t with
    | .Suited s _ =>
      match fs with
      | none => flushFold rest (some s) hh
      | some s0 => if s0 ≠ s then none else flushFold rest (some s0) hh
    | .Honor _ => flushFold rest fs true

/-- yaku.rs `check_flush_tiles`: half flush with honors, full flush
without. -/
def checkFlushTiles (tiles : List Tile) : Option Yaku :=
  match flushFold tiles none false with
  | none => none
  | some (none, _) => none
  | some (some _, hh) => if hh then some .Honitsu else some .Chinitsu

/-- yaku.rs `check_suuankou` counting fold: `none` marks the early return on
a sequence; an open triplet or a triplet completed by the discarded winning
tile is skipped. -/
def suuankouCount (melds : List Meld) (ctx : GameContext) : Option Nat :=
  melds.foldl (fun acc m =>
    match acc with
    | none => none
    | some n =>
      match m with
      | .Koutsu tile opened =>
        if opened then some n
        else if ctx.winType = .Ron ∧ ctx.winningTile = some tile then some n
        else some (n + 1)
      | .Kan _ kt => if kt.isOpen then some n else some (n + 1)
      | .Shuntsu _ _ => none) (some 0)

/-- yaku.rs `check_suuankou`. -/
def checkSuuankou (melds : List Meld) (ctx : GameContext) : Option Yaku :=
  if ctx.winType = .Ron ∧ ctx.winningTile = none then none
  else
    match suuankouCount melds ctx with
    | none => none
    | some n => if n = 4 then some .Suuankou else none

/-- yaku.rs `check_daisangen`. -/
def checkDaisangen (melds : List Meld) : Bool :=
  (melds.filter (fun m =>
    match m with
    | .Koutsu t _ => t.isDragon
    | .Kan t _ => t.isDragon
    | _ => false)).length = 3

/-- yaku.rs `check_four_winds`. -/
def checkFourWinds (melds : List Meld) (pair : Tile) : Option Yaku :=
  let windTriplets : List Honor := melds.filterMap (fun m =>
    match m with
    | .Koutsu (.Honor h) _ => if h.isWindHonor then some h else none
    | .Kan (.Honor h) _ => if h.isWindHonor then some h else none
    | _ => none)
  if windTriplets.length = 4 then some .Daisuushii
  else if windTriplets.length = 3 then
    match pair with
    | .Honor h =>
      if h.isWindHonor && !(windTriplets.any (fun x => decide (x = h))) then
        some .Shousuushii
      else none
    | _ => none
  else none

/-- yaku.rs `check_tsuuiisou`. -/
def checkTsuuiisou (melds : List Meld) (pair : Tile) : Bool :=
  pair.isHonor && melds.all (fun m =>
    match m with
    | .Koutsu t _ => t.isHonor
    | .Kan t _ => t.isHonor
    | .Shuntsu _ _ => false)

/-- yaku.rs `check_chinroutou`. -/
def checkChinroutou (melds : List Meld) (pair : Tile) : Bool :=
  pair.isTerminal && melds.all (fun m =>
    match m with
    | .Koutsu t _ => t.isTerminal
    | .Kan t _ => t.isTerminal
    | .Shuntsu _ _ => false)

/-- yaku.rs `check_ryuuiisou`: all tiles green; the only green sequence is
234s. -/
def checkRyuuiisou (melds : List Meld) (pair : Tile) : Bool :=
  pair.isGreen && melds.all (fun m =>
    match m with
    | .Koutsu t _ => t.isGreen
    | .Kan t _ => t.isGreen
    | .Shuntsu start _ =>
      match start with
      | .Suited .Sou 2 => true
      | _ => false)

/-- Suit of the block an index 0..26 falls in. -/
def suitOfIndex (i : Nat) : Suit :=
  if i < 9 then .Man else if i < 18 then .Pin else .Sou

/-- yaku.rs `check_chuuren_poutou` value loop: accumulates the total, aborts
(flag `false`) when a count is below its requirement or a second extra
appears beyond one copy, and records the extra value. -/
def chuurenLoop (counts : List Nat) (suit : Suit) :
    List Nat → Nat → Option Nat → Nat × Bool × Option Nat
  | [], total, extra => (total, true, extra)
  | v :: rest, total, extra =>
    let c := cget counts (tileToIndex (Tile.Suited suit v))
    let required := if v = 1 ∨ v = 9 then 3 else 1
    let total := total + c
    if c < required then (total, false, extra)
    else if required < c then
      if extra.isSome ∧ required + 1 < c then (total, false, extra)
      else chuurenLoop counts suit rest total (some v)
    else chuurenLoop counts suit rest total extra

/-- yaku.rs `check_chuuren_poutou`: closed single-suit 1112345678999 + one
pattern; the pure (junsei) variant when the winning tile is the extra
copy. -/
def checkChuurenPoutou (counts : List Nat) (ctx : GameContext) : Option Yaku :=
  if ctx.isOpen then none
  else
    let keys := (List.range counts.length).filter (fun i => cget counts i != 0)
    if keys.any (fun i => 27 ≤ i) then none
    else
      match keys with
      | [] => none
      | k :: rest =>
        let suit := suitOfIndex k
        if !rest.all (fun i => decide (suitOfIndex i = suit)) then none
        else
          let (total, ok, extra) := chuurenLoop counts suit [1, 2, 3, 4, 5, 6, 7, 8, 9] 0 none
          if !ok || total ≠ 14 then none
          else
            match ctx.winningTile with
            | some (.Suited ws wv) =>
              if ws = suit ∧ extra = some wv then some .JunseiChuurenPoutou
              else some .ChuurenPoutou
            | _ => some .ChuurenPoutou

/-- yaku.rs `check_sanshoku_doukou`: some value 1..9 with triplets/kans in
all three suits. -/
def checkSanshokuDoukou (melds : List Meld) : Bool :=
  let triplets : List (Suit × Nat) := melds.filterMap (fun m =>
    match m with
    | .Koutsu (.Suited s v) _ => some (s, v)
    | .Kan (.Suited s v) _ => some (s, v)
    | _ => none)
  (List.range 9).any (fun k =>
    let v := k + 1
    triplets.any (fun r => decide (r.1 = Suit.Man) && decide (r.2 = v)) &&
    triplets.any (fun r => decide (r.1 = Suit.Pin) && decide (r.2 = v)) &&
    triplets.any (fun r => decide (r.1 = Suit.Sou) && decide (r.2 = v)))

/-- yaku.rs `check_honroutou`. -/
def checkHonroutou (melds : List Meld) (pair : Tile) : Bool :=
  pair.isTerminalOrHonor && melds.all (fun m =>
    match m with
    | .Koutsu t _ => t.isTerminalOrHonor
    | .Kan t _ => t.isTerminalOrHonor
    | .Shuntsu _ _ => false)

/-- yaku.rs `check_shousangen`. -/
def checkShousangen (melds : List Meld) (pair : Tile) : Bool :=
  decide ((melds.filter (fun m =>
    match m with
    | .Koutsu t _ => t.isDragon
    | .Kan t _ => t.isDragon
    | _ => false)).length = 2) && pair.isDragon

/-- yaku.rs san ankou block, first step: does the winning tile fall inside
any sequence meld of the decomposition?  The source pattern
`Meld::Shuntsu(start, _)` ignores the open flag. -/
def winningTileCompletesSequence (melds : List Meld) (ctx : GameContext) : Bool :=
  match ctx.winningTile with
  | some wt =>
    melds.any (fun m =>
      match m with
      | .Shuntsu start _ =>
        match wt, start with
        | .Suited ws wv, .Suited ss sv =>
          decide (ws = ss) && decide (sv ≤ wv) && decide (wv ≤ sv + 2)
        | _, _ => false
      | _ => false)
  | none => false

/-- yaku.rs san ankou block, counting step: closed kans always count; a
non-open triplet counts on self-draw, and on discard when its tile differs
from the winning tile or the winning tile also completes a sequence. -/
def sanAnkouConcealedCount (melds : List Meld) (ctx : GameContext) : Nat :=
  let wtcs := winningTileCompletesSequence melds ctx
  melds.foldl (fun n m =>
    match m with
    | .Koutsu tile opened =>
      if opened then n
      else if ctx.winType = .Tsumo then n + 1
      else
        match ctx.winningTile with
        | some wt => if tile ≠ wt ∨ wtcs = true then n + 1 else n
        | none => n
    | .Kan _ kt => if kt.isOpen then n else n + 1
    | .Shuntsu _ _ => n) 0

/-- yaku.rs `detect_yaku_with_context`, yakuman phase: tenhou/chiihou and
the structure-based limit checks, in source order. -/
def detectPhase1 (s : HandStructure) (counts : List Nat) (ctx : GameContext) : List Yaku :=
  let tenhouPart :=
    if ctx.isTenhou ∧ ctx.winType = .Tsumo ∧ ctx.isOpen = false ∧ ctx.isDealer = true then
      [Yaku.Tenhou]
    else []
  let chiihouPart :=
    if ctx.isChiihou ∧ ctx.winType = .Tsumo ∧ ctx.isOpen = false ∧ ctx.isDealer = false then
      [Yaku.Chiihou]
    else []
  let structPart :=
    match s with
    | .Kokushi pair =>
      match ctx.winningTile with
      | some wt => if wt = pair then [Yaku.Kokushi13Wait] else [Yaku.KokushiMusou]
      | none => [Yaku.KokushiMusou]
    | .Chiitoitsu pairs =>
      if pairs.all (·.isHonor) then [Yaku.Tsuuiisou]
      else if pairs.all (·.isTerminal) then [Yaku.Chinroutou]
      else []
    | .Standard melds pair =>
      (match checkSuuankou melds ctx with | some y => [y] | none => []) ++
      (if checkDaisangen melds then [Yaku.Daisangen] else []) ++
      (match checkFourWinds melds pair with | some y => [y] | none => []) ++
      (if checkTsuuiisou melds pair then [Yaku.Tsuuiisou] else []) ++
      (if checkChinroutou melds pair then [Yaku.Chinroutou] else []) ++
      (if checkRyuuiisou melds pair then [Yaku.Ryuuiisou] else []) ++
      (if ctx.isOpen = false then
        (match checkChuurenPoutou counts ctx with | some y => [y] | none => [])
      else [])
  tenhouPart ++ chiihouPart ++ structPart

/-- yaku.rs `detect_yaku_with_context`, regular phase: context-driven then
structure-driven non-limit patterns, in source order. -/
def detectPhase2 (s : HandStructure) (ctx : GameContext) : List Yaku :=
  let riichiPart :=
    if ctx.isRiichi ∧ ctx.isOpen = false then
      (if ctx.isDoubleRiichi then [Yaku.DoubleRiichi] else [Yaku.Riichi]) ++
        (if ctx.isIppatsu then [Yaku.Ippatsu] else [])
    else []
  let tsumoPart := if ctx.winType = .Tsumo ∧ ctx.isOpen = false then [Yaku.MenzenTsumo] else []
  let rinshanPart := if ctx.isRinshan ∧ ctx.winType = .Tsumo then [Yaku.RinshanKaihou] else []
  let chankanPart := if ctx.isChankan ∧ ctx.winType = .Ron then [Yaku.Chankan] else []
  let haiteiPart := if ctx.isLastTile ∧ ctx.winType = .Tsumo then [Yaku.HaiteiRaoyue] else []
  let houteiPart := if ctx.isLastTile ∧ ctx.winType = .Ron then [Yaku.HouteiRaoyui] else []
  let structPart :=
    match s with
    | .Kokushi _ => []
    | .Chiitoitsu pairs =>
      [Yaku.Chiitoitsu] ++
        (if pairs.all (·.isSimple) then [Yaku.Tanyao] else []) ++
        (if pairs.all (·.isTerminalOrHonor) then [Yaku.Honroutou] else []) ++
        (match checkFlushTiles pairs with | some y => [y] | none => [])
    | .Standard melds pair =>
      let allTiles := collectAllTiles melds pair
      (if allTiles.all (·.isSimple) then [Yaku.Tanyao] else []) ++
      (match ctx.winningTile with
       | some wt => if isPinfu s wt ctx then [Yaku.Pinfu] else []
       | none => []) ++
      (if ctx.isOpen = false then
        (match checkPeikou melds with | some y => [y] | none => [])
      else []) ++
      checkYakuhai melds ctx ++
      (if melds.all (·.isTripletOrKan) then [Yaku.Toitoi] else []) ++
      (if checkSanshoku melds then [Yaku.SanshokuDoujun] else []) ++
      (if checkSanshokuDoukou melds then [Yaku.SanshokuDoukou] else []) ++
      (if checkIttsu melds then [Yaku.Ittsu] else []) ++
      (if checkChanta melds pair ∧ checkJunchan melds pair = false then [Yaku.Chanta] else []) ++
      (if sanAnkouConcealedCount melds ctx = 3 then [Yaku.SanAnkou] else []) ++
      (if (melds.filter (fun m => match m with | .Kan _ _ => true | _ => false)).length = 3 then
        [Yaku.SanKantsu]
      else []) ++
      (if checkHonroutou melds pair then [Yaku.Honroutou] else []) ++
      (if checkShousangen melds pair then [Yaku.Shousangen] else []) ++
      (if checkJunchan melds pair then [Yaku.Junchan] else []) ++
      (match checkFlushTiles allTiles with | some y => [y] | none => [])
  riichiPart ++ tsumoPart ++ rinshanPart ++ chankanPart ++ haiteiPart ++ houteiPart ++ structPart

/-- yaku.rs `detect_yaku_with_context`: yakuman phase; regular phase only
when no yakuman fired; for open hands drop closed-only patterns and use the
open han values.  `is_yakuman` is read off the list before the open-hand
filter, as in the source. -/
def detectYakuWithContext (s : HandStructure) (counts : List Nat) (ctx : GameContext) :
    YakuResult :=
  let ys1 := detectPhase1 s counts ctx
  let hasYakuman := ys1.any (·.isYakuman)
  let pre := if hasYakuman then ys1 else ys1 ++ detectPhase2 s ctx
  let isYkm := pre.any (·.isYakuman)
  let retained := if ctx.isOpen then pre.filter (·.validWhenOpen) else pre
  let totalHan :=
    if ctx.isOpen then (retained.filterMap (·.hanOpen)).sum
    else (retained.map (·.han)).sum
  let dora := countDoraDetailed counts ctx
  ⟨retained, totalHan, dora.total, dora.regular, dora.ura, dora.aka, isYkm⟩

end Agari

namespace Agari

/-!  scoring.rs: fu, score levels, payments. -/

/-- scoring.rs `ScoreLevel`. -/
inductive ScoreLevel : Type
  | Normal
  | Mangan
  | Haneman
  | Baiman
  | Sanbaiman
  | Yakuman
  | DoubleYakuman
  deriving DecidableEq, Repr

/-- scoring.rs `ScoreLevel::basic_points`. -/
def ScoreLevel.basicPoints : ScoreLevel → Nat
  | .Normal => 0
  | .Mangan => 2000
  | .Haneman => 3000
  | .Baiman => 4000
  | .Sanbaiman => 6000
  | .Yakuman => 8000
  | .DoubleYakuman => 16000

/-- scoring.rs `FuBreakdown`. -/
structure FuBreakdown : Type where
  base : Nat
  menzenRon : Nat
  tsumo : Nat
  melds : Nat
  pair : Nat
  wait : Nat
  rawTotal : Nat
  deriving DecidableEq, Repr

/-- scoring.rs `FuResult`. -/
structure FuResult : Type where
  total : Nat
  breakdown : FuBreakdown
  deriving DecidableEq, Repr

/-- scoring.rs `Payment`. -/
structure Payment : Type where
  total : Nat
  fromNonDealer : Option Nat
  fromDealer : Option Nat
  fromDiscarder : Option Nat
  deriving DecidableEq, Repr

/-- scoring.rs `ScoringResult`. -/
structure ScoringResult : Type where
  fu : FuResult
  han : Nat
  scoreLevel : ScoreLevel
  basicPoints : Nat
  payment : Payment
  isDealer : Bool
  isCountedYakuman : Bool
  deriving DecidableEq, Repr

/-- scoring.rs `winning_tile_in_closed_sequence`: only closed sequences
count; honors are never in sequences. -/
def winningTileInClosedSequence (tile : Tile) (melds : List Meld) : Bool :=
  match tile with
  | .Honor _ => false
  | .Suited suit value =>
    melds.any (fun m =>
      match m with
      | .Shuntsu (.Suited seqSuit startVal) opened =>
        !opened && decide (seqSuit = suit) && decide (startVal ≤ value) &&
          decide (value ≤ startVal + 2)
      | _ => false)

/-- scoring.rs `meld_fu_with_context`: sequence 0; triplet base 2/4 doubled
when closed, with a discard-completed triplet treated as open unless the
winning tile also sits in a closed sequence; quads are 4x the triplet fu and
depend only on the kan type. -/
def meldFuWithContext (m : Meld) (allMelds : List Meld) (ctx : GameContext) : Nat :=
  match m with
  | .Shuntsu _ _ => 0
  | .Koutsu tile opened =>
    let base := if tile.isTerminalOrHonor then 4 else 2
    let isRonOnThisTile := ctx.winType = .Ron ∧ ctx.winningTile = some tile
    let isTrueShanpon := isRonOnThisTile ∧ winningTileInClosedSequence tile allMelds = false
    if opened = true ∨ isTrueShanpon then base else base * 2
  | .Kan tile kt =>
    let base := if tile.isTerminalOrHonor then 16 else 8
    if kt.isOpen then base else base * 2

/-- scoring.rs `pair_fu`: dragons 2; winds 2 per matching role. -/
def pairFu (pair : Tile) (ctx : GameContext) : Nat :=
  match pair with
  | .Honor h =>
    match h with
    | .White | .Green | .Red => 2
    | w => (if w = ctx.roundWind then 2 else 0) + (if w = ctx.seatWind then 2 else 0)
  | .Suited _ _ => 0

/-- scoring.rs `round_up_to_10`. -/
def roundUpTo10 (v : Nat) : Nat := (v + 9) / 10 * 10

/-- The pinfu test of scoring.rs `calculate_standard_fu`:
`winning_tile.map(|wt| is_pinfu(..)).unwrap_or(false)`. -/
def isPinfuHandB (melds : List Meld) (pair : Tile) (ctx : GameContext) : Bool :=
  match ctx.winningTile with
  | some wt => isPinfu (.Standard melds pair) wt ctx
  | none => false

/-- scoring.rs `calculate_standard_fu`. -/
def calculateStandardFu (melds : List Meld) (pair : Tile) (ctx : GameContext) : FuResult :=
  let pinfuHand := isPinfuHandB melds pair ctx
  if pinfuHand = true ∧ ctx.winType = .Tsumo then
    ⟨20, ⟨20, 0, 0, 0, 0, 0, 0⟩⟩
  else
    let menzenRon := if ctx.isOpen = false ∧ ctx.winType = .Ron then 10 else 0
    let tsumoFu := if ctx.winType = .Tsumo ∧ pinfuHand = false then 2 else 0
    let meldsFu := (melds.map (fun m => meldFuWithContext m melds ctx)).sum
    let pairF := pairFu pair ctx
    let waitFu :=
      match ctx.winningTile with
      | none => 0
      | some wt =>
        if pinfuHand = true then 0
        else
          match bestWaitTypeForScoring (.Standard melds pair) wt with
          | some w => w.fu
          | none => 0
    let rawTotal := 20 + menzenRon + tsumoFu + meldsFu + pairF + waitFu
    let rounded := roundUpTo10 rawTotal
    let total := if ctx.isOpen = true ∧ rounded < 30 then 30 else rounded
    ⟨total, ⟨20, menzenRon, tsumoFu, meldsFu, pairF, waitFu, rawTotal⟩⟩

/-- scoring.rs `calculate_fu`: chiitoitsu exactly 25; kokushi reported as
30; standard computed. -/
def calculateFu (s : HandStructure) (ctx : GameContext) : FuResult :=
  match s with
  | .Chiitoitsu _ => ⟨25, ⟨25, 0, 0, 0, 0, 0, 0⟩⟩
  | .Kokushi _ => ⟨30, ⟨30, 0, 0, 0, 0, 0, 0⟩⟩
  | .Standard melds pair => calculateStandardFu melds pair ctx

/-- scoring.rs `determine_score_level`. -/
def determineScoreLevel (han fu : Nat) (isYakuman : Bool) : ScoreLevel :=
  if isYakuman then
    if 26 ≤ han then .DoubleYakuman else .Yakuman
  else if 13 ≤ han then .Yakuman
  else if 11 ≤ han then .Sanbaiman
  else if 8 ≤ han then .Baiman
  else if 6 ≤ han then .Haneman
  else if 5 ≤ han then .Mangan
  else if han = 4 ∧ 40 ≤ fu then .Mangan
  else if han = 3 ∧ 70 ≤ fu then .Mangan
  else .Normal

/-- scoring.rs `calculate_basic_points`: fu times 2^(han+2), capped at
2000, unless a named tier applies. -/
def calculateBasicPoints (han fu : Nat) (isYakuman : Bool) : Nat :=
  let level := determineScoreLevel han fu isYakuman
  if level ≠ .Normal then level.basicPoints
  else min (fu * 2 ^ (han + 2)) 2000

/-- scoring.rs `round_up_to_100`. -/
def roundUpTo100 (v : Nat) : Nat := (v + 99) / 100 * 100

/-- scoring.rs `calculate_payment`. -/
def calculatePayment (basicPoints : Nat) (isDealer : Bool) (wt : WinType) : Payment :=
  match wt with
  | .Tsumo =>
    if isDealer then
      let fromEach := roundUpTo100 (basicPoints * 2)
      ⟨fromEach * 3, some fromEach, none, none⟩
    else
      let fromDealer := roundUpTo100 (basicPoints * 2)
      let fromNonDealer := roundUpTo100 basicPoints
      ⟨fromDealer + fromNonDealer * 2, some fromNonDealer, some fromDealer, none⟩
  | .Ron =>
    let multiplier := if isDealer then 6 else 4
    let fromDiscarder := roundUpTo100 (basicPoints * multiplier)
    ⟨fromDiscarder, none, none, some fromDiscarder⟩

/-- scoring.rs `calculate_score`. -/
def calculateScore (s : HandStructure) (yakuResult : YakuResult) (ctx : GameContext) :
    ScoringResult :=
  let fu := calculateFu s ctx
  let han := yakuResult.totalHanWithDora
  let scoreLevel := determineScoreLevel han fu.total yakuResult.isYakuman
  let basicPoints := calculateBasicPoints han fu.total yakuResult.isYakuman
  let isDealer := ctx.isDealer
  let payment := calculatePayment basicPoints isDealer ctx.winType
  let isCountedYakuman :=
    (scoreLevel = ScoreLevel.Yakuman ∨ scoreLevel = ScoreLevel.DoubleYakuman) ∧
      yakuResult.isYakuman = false
  ⟨fu, han, scoreLevel, basicPoints, payment, isDealer, decide isCountedYakuman⟩

/-!  main.rs: winning-tile inference. -/

/-- One scored interpretation: structure, detected yaku, score. -/
def InferEntry : Type := HandStructure × YakuResult × ScoringResult

instance : DecidableEq InferEntry :=
  inferInstanceAs (DecidableEq (HandStructure × YakuResult × ScoringResult))

/-- Comparison key of main.rs `infer_best_winning_tile`:
`(payment.total, han, 255 - fu.total)`. -/
def scoreTupleOf (r : InferEntry) : Nat × Nat × Nat :=
  (r.2.2.payment.total, r.2.2.han, 255 - r.2.2.fu.total)

/-- Strict lexicographic `>` on the comparison tuples (the Rust tuple
comparison). -/
def tupleGt (a b : Nat × Nat × Nat) : Bool :=
  decide (b.1 < a.1) ||
    (decide (a.1 = b.1) &&
      (decide (b.2.1 < a.2.1) || (decide (a.2.1 = b.2.1) && decide (b.2.2 < a.2.2))))

/-- Scoring one candidate winning tile against one structure, as in the
inference loop body. -/
def evalCandidate (base : GameContext) (allTilesCounts : List Nat) (t : Tile)
    (s : HandStructure) : InferEntry :=
  let ctx := { base with winningTile := some t }
  let yr := detectYakuWithContext s allTilesCounts ctx
  (s, yr, calculateScore s yr ctx)

/-- State of the inference fold: collected best results, best context, best
tuple so far. -/
def InferState : Type := List InferEntry × GameContext × Option (Nat × Nat × Nat)

/-- Loop body of main.rs `infer_best_winning_tile`: a strictly better tuple
resets the collection; anything matching the best tuple is appended. -/
def inferStep (base : GameContext) (allTilesCounts : List Nat) (t : Tile)
    (st : InferState) (s : HandStructure) : InferState :=
  let r := evalCandidate base allTilesCounts t s
  let current := scoreTupleOf r
  let isBetter :=
    match st.2.2 with
    | none => true
    | some b => tupleGt current b
  let st1 : InferState :=
    if isBetter then ([], { base with winningTile := some t }, some current) else st
  if st1.2.2 = some current then (st1.1 ++ [r], st1.2.1, st1.2.2) else st1

/-- main.rs `infer_best_winning_tile`.  The Rust function iterates a
`HashSet` of the hand's tiles, whose order is unspecified; the embedding
iterates `tiles.dedup`, which has the same elements.  The set of collected
best results and the winning tuple are independent of that order (each entry
achieving the maximum is pushed either when it strictly improves the best or
when it ties it). -/
def inferBestWinningTile (structures : List HandStructure) (allTilesCounts : List Nat)
    (baseContext : GameContext) (tiles : List Tile) : List InferEntry × GameContext :=
  let uniqueTiles := tiles.dedup
  let final := uniqueTiles.foldl (fun st t =>
    structures.foldl (inferStep baseContext allTilesCounts t) st)
    (([] : List InferEntry), baseContext, (none : Option (Nat × Nat × Nat)))
  if final.1.isEmpty then
    (structures.map (fun s =>
      let yr := detectYakuWithContext s allTilesCounts baseContext
      (s, yr, calculateScore s yr baseContext)), baseContext)
  else (final.1, final.2.1)

end Agari

namespace Agari

/-!  Concrete inputs used by the claim theorems. -/

/-- Hand 1m x4, 2m x3, 3m x3, 4m x2, 7z x2: a complete standard hand
(pair 77z with melds 111m, 123m, 234m, 234m). -/
def c1Hand : List Nat :=
  [4, 3, 3, 2, 0, 0, 0, 0, 0, 0, 0, 0, 0, 0, 0, 0, 0, 0,
   0, 0, 0, 0, 0, 0, 0, 0, 0, 0, 0, 0, 0, 0, 0, 2]

set_option maxHeartbeats 2000000 in
/-- C1: for every 14-tile multiset, `calculate_shanten` returns -1 exactly
when `decompose_hand` is non-empty.  This fails on `c1Hand`: the decomposer
finds the complete decomposition 111m + 123m + 234m + 234m + pair 77z, yet
the shanten calculator reports 0, because both greedy meld-extraction orders
(sequences-first and triplets-first) find only three melds in the man suit
after the 77z pair is removed, against the module's own contract that -1
encodes a complete hand. -/
theorem C1_failing_input_eval :
    decomposeHand c1Hand ≠ [] ∧ (calculateShanten c1Hand).shanten = 0 :=
  ⟨by decide, by decide⟩

/-- Melds of the C3 failing input: three closed triplets (111m, 222p, 444s)
and a called (open) sequence 456s. -/
def c3Melds : List Meld :=
  [.Koutsu (.Suited .Man 1) false, .Koutsu (.Suited .Pin 2) false,
   .Koutsu (.Suited .Sou 4) false, .Shuntsu (.Suited .Sou 4) true]

/-- Decomposition of the C3 failing input, pair 77z. -/
def c3Struct : HandStructure := .Standard c3Melds (.Honor .Red)

/-- Full tile multiset of the C3 failing input (hand plus called chi). -/
def c3Counts : List Nat :=
  [3, 0, 0, 0, 0, 0, 0, 0, 0, 0, 3, 0, 0, 0, 0, 0, 0, 0,
   0, 0, 0, 4, 1, 1, 0, 0, 0, 0, 0, 0, 0, 0, 0, 2]

/-- Context of the C3 failing input: win by discard on 4s, open hand (the
456s sequence was called). -/
def c3Ctx : GameContext :=
  { GameContext.new .Ron .East .South with
      winningTile := some (.Suited .Sou 4), isOpen := true }

/-- C3: concealed-triplet counting is claimed to exclude a discard-completed
triplet unless the winning tile also appears in a CLOSED sequence meld, with
open/called sequences never triggering the exception.  The code's san ankou
block matches `Meld::Shuntsu(start, _)` ignoring the open flag, so on this
input - winning tile 4s completing the 444s triplet while sitting only in
the called (open) 456s sequence - the triplet is still counted as concealed
and three-concealed-triplets is awarded, although no closed sequence
contains the winning tile (the fu computation's
`winning_tile_in_closed_sequence`, which implements the documented rule,
returns false here). -/
theorem C3_failing_input_eval :
    Yaku.SanAnkou ∈ (detectYakuWithContext c3Struct c3Counts c3Ctx).yakuList ∧
    winningTileInClosedSequence (.Suited .Sou 4) c3Melds = false ∧
    (c3Melds.any fun m => m.isSequence && m.isOpen) = true :=
  ⟨by decide, by decide, by decide⟩

/-- Melds of the C8 counterexample: four closed triplets. -/
def c8Melds : List Meld :=
  [.Koutsu (.Suited .Man 1) false, .Koutsu (.Suited .Pin 2) false,
   .Koutsu (.Suited .Sou 3) false, .Koutsu (.Honor .East) false]

/-- Decomposition of the C8 counterexample, pair 99s. -/
def c8Struct : HandStructure := .Standard c8Melds (.Suited .Sou 9)

/-- Tile multiset of the C8 counterexample. -/
def c8Counts : List Nat :=
  [3, 0, 0, 0, 0, 0, 0, 0, 0, 0, 3, 0, 0, 0, 0, 0, 0, 0,
   0, 0, 3, 0, 0, 0, 0, 0, 2, 3, 0, 0, 0, 0, 0, 0]

/-- Context of the C8 counterexample: self-draw, but the caller flagged the
hand as open. -/
def c8Ctx : GameContext :=
  { GameContext.new .Tsumo .East .South with isOpen := true }

/-- C8 counterexample: four concealed triplets fire (self-draw), so
`is_yakuman` is reported true, but the hand is flagged open and the
closed-only Suuankou is then filtered out, leaving a reported total han of
0 - contradicting the claim that a limit result always reports at least 13
han. -/
theorem C8_counterexample_eval :
    (detectYakuWithContext c8Struct c8Counts c8Ctx).isYakuman = true ∧
    (detectYakuWithContext c8Struct c8Counts c8Ctx).totalHan = 0 :=
  ⟨by decide, by decide⟩

/-- C10: the winner is classified as dealer exactly when the seat wind is
East, and scoring selects between the dealer and the non-dealer payment
formulas through that classification alone: `calculate_score` feeds
`is_dealer` into `calculate_payment`, whose discard formulas are
round-up-100 of 6x base for the dealer and 4x base otherwise, and whose
self-draw formulas are 2x base from each of three players for the dealer
versus 2x base from the dealer plus 1x base from each other non-dealer. -/
theorem C10_dealer_classification :
    ∀ (ctx : GameContext),
      (ctx.isDealer = true ↔ ctx.seatWind = Honor.East) ∧
      (∀ (s : HandStructure) (yr : YakuResult),
        (calculateScore s yr ctx).isDealer = ctx.isDealer ∧
        (calculateScore s yr ctx).payment =
          calculatePayment (calculateScore s yr ctx).basicPoints ctx.isDealer ctx.winType) ∧
      (∀ bp : Nat,
        calculatePayment bp true WinType.Ron =
          ⟨roundUpTo100 (bp * 6), none, none, some (roundUpTo100 (bp * 6))⟩ ∧
        calculatePayment bp false WinType.Ron =
          ⟨roundUpTo100 (bp * 4), none, none, some (roundUpTo100 (bp * 4))⟩ ∧
        calculatePayment bp true WinType.Tsumo =
          ⟨roundUpTo100 (bp * 2) * 3, some (roundUpTo100 (bp * 2)), none, none⟩ ∧
        calculatePayment bp false WinType.Tsumo =
          ⟨roundUpTo100 (bp * 2) + roundUpTo100 bp * 2, some (roundUpTo100 bp),
            some (roundUpTo100 (bp * 2)), none⟩) := by
  intro ctx
  refine ⟨?_, fun s yr => ⟨rfl, rfl⟩, fun bp => ⟨rfl, rfl, rfl, rfl⟩⟩
  simp [GameContext.isDealer]

/-- Divisibility by 10 survives the open-hand minimum clamp. -/
theorem dvd_ten_open_min (b : Prop) [Decidable b] (v : Nat) (hv : 10 ∣ v) :
    10 ∣ if b then 30 else v := by
  split
  · exact ⟨3, rfl⟩
  · exact hv

/-- C7: `calculate_fu` returns exactly 25 on a seven-pairs decomposition,
exactly 20 on a standard decomposition with pinfu and self-draw, and in
every non-seven-pairs case a multiple of 10 (the standard path rounds the
raw sum up to the nearest 10 and possibly raises it to the open-hand
minimum 30; kokushi reports 30). -/
theorem C7_fu_values :
    ∀ (s : HandStructure) (ctx : GameContext),
      ((∃ ps, s = HandStructure.Chiitoitsu ps) → (calculateFu s ctx).total = 25) ∧
      ((∃ melds pair, s = HandStructure.Standard melds pair ∧
          isPinfuHandB melds pair ctx = true ∧ ctx.winType = WinType.Tsumo) →
        (calculateFu s ctx).total = 20) ∧
      ((∀ ps, s ≠ HandStructure.Chiitoitsu ps) → 10 ∣ (calculateFu s ctx).total) := by
  intro s ctx
  refine ⟨?_, ?_, ?_⟩
  · rintro ⟨ps, rfl⟩; rfl
  · rintro ⟨melds, pair, rfl, hp, ht⟩
    simp [calculateFu, calculateStandardFu, hp, ht]
  · intro h
    cases s with
    | Chiitoitsu ps => exact absurd rfl (h ps)
    | Kokushi p => exact ⟨3, rfl⟩
    | Standard melds pair =>
      show 10 ∣ (calculateStandardFu melds pair ctx).total
      by_cases hpt : isPinfuHandB melds pair ctx = true ∧ ctx.winType = WinType.Tsumo
      · simp only [calculateStandardFu, if_pos hpt]
        exact ⟨2, rfl⟩
      · simp only [calculateStandardFu, if_neg hpt]
        refine dvd_ten_open_min _ _ ?_
        simp only [roundUpTo10]
        exact dvd_mul_left 10 _

/-- C7 witness: a concrete seven-pairs decomposition scores 25 fu, and a
concrete pinfu self-draw hand (123m 456m 789p 234s 55p won on 4s) scores
exactly 20 fu. -/
theorem C7_fu_values_witness :
    (calculateFu (HandStructure.Chiitoitsu [.Suited .Man 1]) (GameContext.new .Ron .East .East)).total = 25 ∧
    (calculateFu
        (HandStructure.Standard
          [.Shuntsu (.Suited .Man 1) false, .Shuntsu (.Suited .Man 4) false,
           .Shuntsu (.Suited .Pin 7) false, .Shuntsu (.Suited .Sou 2) false]
          (.Suited .Pin 5))
        { GameContext.new .Tsumo .East .South with winningTile := some (.Suited .Sou 4) }).total = 20 ∧
    10 ∣ (calculateFu (HandStructure.Kokushi (.Honor .East)) (GameContext.new .Ron .East .East)).total := by
  refine ⟨?_, ?_, ?_⟩
  · exact (C7_fu_values _ _).1 ⟨_, rfl⟩
  · exact (C7_fu_values _ _).2.1 ⟨_, _, rfl, by decide, rfl⟩
  · exact (C7_fu_values _ _).2.2 (fun ps h => by cases h)

/-- C4: in meld-fu computation, a non-open triplet whose tile equals the
winning tile of a win by discard receives its base (open) fu unless the
winning tile also appears in a closed sequence meld of the decomposition, in
which case it keeps the doubled closed fu; `winning_tile_in_closed_sequence`
holds exactly when some CLOSED sequence meld contains the winning tile, so
open/called sequences never enable the exception; and quad fu depends only
on the kan type and tile class, never on the winning tile or win mode. -/
theorem C4_meld_fu_discard_triplet :
    ∀ (melds : List Meld) (t : Tile) (ctx : GameContext),
      ctx.winType = WinType.Ron → ctx.winningTile = some t →
      (meldFuWithContext (Meld.Koutsu t false) melds ctx =
        (if winningTileInClosedSequence t melds then
          (if t.isTerminalOrHonor then 4 else 2) * 2
        else (if t.isTerminalOrHonor then 4 else 2))) ∧
      (winningTileInClosedSequence t melds = true ↔
        ∃ s v, Meld.Shuntsu (Tile.Suited s v) false ∈ melds ∧
          ∃ tv, t = Tile.Suited s tv ∧ v ≤ tv ∧ tv ≤ v + 2) ∧
      (∀ (u : Tile) (kt : KanType),
        meldFuWithContext (Meld.Kan u kt) melds ctx =
          (if kt.isOpen then (if u.isTerminalOrHonor then 16 else 8)
          else (if u.isTerminalOrHonor then 16 else 8) * 2)) := by
  intro melds t ctx hron hwt
  refine ⟨?_, ?_, fun u kt => rfl⟩
  · show (if (false = true) ∨ ((ctx.winType = .Ron ∧ ctx.winningTile = some t) ∧
        winningTileInClosedSequence t melds = false) then
        (if t.isTerminalOrHonor then 4 else 2)
      else (if t.isTerminalOrHonor then 4 else 2) * 2) = _
    rcases hcs : winningTileInClosedSequence t melds with _ | _
    · simp [hron, hwt, hcs]
    · simp [hron, hwt, hcs]
  · cases t with
    | Honor h =>
      constructor
      · intro hc; exact absurd hc (by simp [winningTileInClosedSequence])
      · rintro ⟨s, v, _, tv, hteq, _⟩; cases hteq
    | Suited suit value =>
      rw [winningTileInClosedSequence, List.any_eq_true]
      constructor
      · rintro ⟨m, hm, hf⟩
        match m, hf with
        | .Shuntsu (.Suited seqSuit startVal) opened, hf =>
          simp only [Bool.and_eq_true, Bool.not_eq_true', decide_eq_true_eq] at hf
          obtain ⟨⟨⟨hop, hsuit⟩, hle⟩, hge⟩ := hf
          subst hop hsuit
          exact ⟨seqSuit, startVal, hm, value, rfl, hle, hge⟩
      · rintro ⟨s, v, hm, tv, hteq, hle, hge⟩
        obtain ⟨rfl, rfl⟩ : s = suit ∧ tv = value := by
          injection hteq with h1 h2; exact ⟨h1.symm, h2.symm⟩
        exact ⟨_, hm, by simp [hle, hge]⟩

/-- Context of the C4 witness: win by discard on 3s. -/
def c4WitnessCtx : GameContext :=
  { GameContext.new .Ron .East .East with winningTile := some (.Suited .Sou 3) }

/-- C4 witness: triplet of 3s completed by discard with a closed 345s
sequence in the same decomposition keeps doubled (closed) fu, matching the
theorem at a concrete input. -/
theorem C4_meld_fu_discard_triplet_witness :
    (meldFuWithContext (Meld.Koutsu (.Suited .Sou 3) false)
        [.Shuntsu (.Suited .Sou 3) false] c4WitnessCtx =
      (if winningTileInClosedSequence (.Suited .Sou 3) [.Shuntsu (.Suited .Sou 3) false] then
        (if (Tile.Suited .Sou 3).isTerminalOrHonor then 4 else 2) * 2
      else (if (Tile.Suited .Sou 3).isTerminalOrHonor then 4 else 2))) ∧
    (winningTileInClosedSequence (.Suited .Sou 3) [.Shuntsu (.Suited .Sou 3) false] = true ↔
      ∃ s v, Meld.Shuntsu (Tile.Suited s v) false ∈ [Meld.Shuntsu (.Suited .Sou 3) false] ∧
        ∃ tv, (Tile.Suited .Sou 3) = Tile.Suited s tv ∧ v ≤ tv ∧ tv ≤ v + 2) ∧
    (∀ (u : Tile) (kt : KanType),
      meldFuWithContext (Meld.Kan u kt) [Meld.Shuntsu (.Suited .Sou 3) false] c4WitnessCtx =
        (if kt.isOpen then (if u.isTerminalOrHonor then 16 else 8)
        else (if u.isTerminalOrHonor then 16 else 8) * 2)) :=
  C4_meld_fu_discard_triplet _ _ _ rfl rfl

end Agari

namespace Agari

/-!  Lemmas on the yaku-detection phases, used for claim C8. -/

/-- Membership in a conditional singleton forces equality. -/
theorem mem_ite_singleton {α : Type _} {c : Prop} [Decidable c] {a y : α}
    (h : y ∈ (if c then [a] else ([] : List α))) : y = a := by
  split at h
  · simpa using h
  · simp at h

/-- yaku.rs `check_suuankou` only ever returns the Suuankou pattern. -/
theorem checkSuuankou_some {melds : List Meld} {ctx : GameContext} {y : Yaku}
    (h : checkSuuankou melds ctx = some y) : y = .Suuankou := by
  simp only [checkSuuankou] at h
  split at h
  · cases h
  · split at h
    · cases h
    · split at h
      · exact (Option.some.inj h).symm
      · cases h

/-- yaku.rs `check_four_winds` only returns the two four-winds patterns. -/
theorem checkFourWinds_some {melds : List Meld} {pair : Tile} {y : Yaku}
    (h : checkFourWinds melds pair = some y) : y = .Daisuushii ∨ y = .Shousuushii := by
  simp only [checkFourWinds] at h
  split at h
  · exact Or.inl (Option.some.inj h).symm
  · split at h
    · split at h
      · split at h
        · exact Or.inr (Option.some.inj h).symm
        · cases h
      · cases h
    · cases h

/-- yaku.rs `check_chuuren_poutou` only returns the two nine-gates
patterns. -/
theorem checkChuurenPoutou_some {counts : List Nat} {ctx : GameContext} {y : Yaku}
    (h : checkChuurenPoutou counts ctx = some y) :
    y = .JunseiChuurenPoutou ∨ y = .ChuurenPoutou := by
  simp only [checkChuurenPoutou] at h
  split at h
  · cases h
  · split at h
    · cases h
    · split at h
      · cases h
      · split at h
        · cases h
        · split at h
          · cases h
          · split at h
            · split at h
              · exact Or.inl (Option.some.inj h).symm
              · exact Or.inr (Option.some.inj h).symm
            · exact Or.inr (Option.some.inj h).symm

/-- yaku.rs `check_peikou` only returns the two identical-sequence
patterns. -/
theorem checkPeikou_some {melds : List Meld} {y : Yaku}
    (h : checkPeikou melds = some y) : y = .Ryanpeikou ∨ y = .Iipeikou := by
  simp only [checkPeikou] at h
  split at h
  · cases h
  · split at h
    · exact Or.inl (Option.some.inj h).symm
    · split at h
      · exact Or.inr (Option.some.inj h).symm
      · cases h

/-- yaku.rs `check_flush_tiles` only returns the two flush patterns. -/
theorem checkFlushTiles_some {tiles : List Tile} {y : Yaku}
    (h : checkFlushTiles tiles = some y) : y = .Honitsu ∨ y = .Chinitsu := by
  simp only [checkFlushTiles] at h
  split at h
  · cases h
  · cases h
  · split at h
    · exact Or.inl (Option.some.inj h).symm
    · exact Or.inr (Option.some.inj h).symm

/-- yaku.rs `check_yakuhai` returns only value-honor patterns. -/
theorem checkYakuhai_mem {melds : List Meld} {ctx : GameContext} {y : Yaku}
    (h : y ∈ checkYakuhai melds ctx) : ∃ w, y = .Yakuhai w := by
  unfold checkYakuhai at h
  rw [List.mem_flatMap] at h
  obtain ⟨m, _, hm⟩ := h
  match m with
  | .Shuntsu t o => simp at hm
  | .Koutsu (.Suited s v) o => simp at hm
  | .Kan (.Suited s v) o => simp at hm
  | .Koutsu (.Honor w) o | .Kan (.Honor w) o =>
    cases w
    case East | South | West | North =>
      simp only [List.mem_append] at hm
      rcases hm with hm | hm <;> exact ⟨_, mem_ite_singleton hm⟩
    case White | Green | Red => exact ⟨_, by simpa using hm⟩

/-- Every pattern collected in the yakuman phase is a limit pattern. -/
theorem detectPhase1_yakuman (s : HandStructure) (counts : List Nat) (ctx : GameContext) :
    ∀ y ∈ detectPhase1 s counts ctx, y.isYakuman = true := by
  intro y hy
  simp only [detectPhase1, List.mem_append] at hy
  rcases hy with (hy | hy) | hy
  · cases mem_ite_singleton hy; rfl
  · cases mem_ite_singleton hy; rfl
  · split at hy
    · -- kokushi structure
      split at hy
      · split at hy <;> (rw [List.mem_singleton] at hy; subst hy; rfl)
      · rw [List.mem_singleton] at hy; subst hy; rfl
    · -- chiitoitsu structure
      split at hy
      · rw [List.mem_singleton] at hy; subst hy; rfl
      · split at hy
        · rw [List.mem_singleton] at hy; subst hy; rfl
        · simp at hy
    · -- standard structure
      simp only [List.mem_append] at hy
      rcases hy with ((((((hy | hy) | hy) | hy) | hy) | hy) | hy)
      · split at hy
        · rename_i y' heq
          rw [List.mem_singleton] at hy; subst hy
          cases checkSuuankou_some heq; rfl
        · simp at hy
      · cases mem_ite_singleton hy; rfl
      · split at hy
        · rename_i y' heq
          rw [List.mem_singleton] at hy; subst hy
          rcases checkFourWinds_some heq with h | h <;> (cases h; rfl)
        · simp at hy
      · cases mem_ite_singleton hy; rfl
      · cases mem_ite_singleton hy; rfl
      · cases mem_ite_singleton hy; rfl
      · split at hy
        · split at hy
          · rename_i y' heq
            rw [List.mem_singleton] at hy; subst hy
            rcases checkChuurenPoutou_some heq with h | h <;> (cases h; rfl)
          · simp at hy
        · simp at hy

/-- No pattern collected in the regular phase is a limit pattern. -/
theorem detectPhase2_not_yakuman (s : HandStructure) (ctx : GameContext) :
    ∀ y ∈ detectPhase2 s ctx, y.isYakuman = false := by
  intro y hy
  simp only [detectPhase2, List.mem_append] at hy
  rcases hy with ((((((hy | hy) | hy) | hy) | hy) | hy) | hy)
  · split at hy
    · simp only [List.mem_append] at hy
      rcases hy with hy | hy
      · split at hy <;> (rw [List.mem_singleton] at hy; subst hy; rfl)
      · cases mem_ite_singleton hy; rfl
    · simp at hy
  · cases mem_ite_singleton hy; rfl
  · cases mem_ite_singleton hy; rfl
  · cases mem_ite_singleton hy; rfl
  · cases mem_ite_singleton hy; rfl
  · cases mem_ite_singleton hy; rfl
  · split at hy
    · -- kokushi structure
      simp at hy
    · -- chiitoitsu structure
      simp only [List.mem_append] at hy
      rcases hy with ((hy | hy) | hy) | hy
      · rw [List.mem_singleton] at hy; subst hy; rfl
      · cases mem_ite_singleton hy; rfl
      · cases mem_ite_singleton hy; rfl
      · split at hy
        · rename_i y' heq
          rw [List.mem_singleton] at hy; subst hy
          rcases checkFlushTiles_some heq with h | h <;> (cases h; rfl)
        · simp at hy
    · -- standard structure
      simp only [List.mem_append] at hy
      rcases hy with ((((((((((((((hy | hy) | hy) | hy) | hy) | hy) | hy) | hy) | hy) | hy) | hy) | hy) | hy) | hy) | hy)
      · cases mem_ite_singleton hy; rfl
      · split at hy
        · cases mem_ite_singleton hy; rfl
        · simp at hy
      · split at hy
        · split at hy
          · rename_i y' heq
            rw [List.mem_singleton] at hy; subst hy
            rcases checkPeikou_some heq with h | h <;> (cases h; rfl)
          · simp at hy
        · simp at hy
      · obtain ⟨w, rfl⟩ := checkYakuhai_mem hy; rfl
      · cases mem_ite_singleton hy; rfl
      · cases mem_ite_singleton hy; rfl
      · cases mem_ite_singleton hy; rfl
      · cases mem_ite_singleton hy; rfl
      · cases mem_ite_singleton hy; rfl
      · cases mem_ite_singleton hy; rfl
      · cases mem_ite_singleton hy; rfl
      · cases mem_ite_singleton hy; rfl
      · cases mem_ite_singleton hy; rfl
      · cases mem_ite_singleton hy; rfl
      · split at hy
        · rename_i y' heq
          rw [List.mem_singleton] at hy; subst hy
          rcases checkFlushTiles_some heq with h | h <;> (cases h; rfl)
        · simp at hy

/-- Every limit pattern carries at least 13 base han. -/
theorem yakuman_han_ge (y : Yaku) (h : y.isYakuman = true) : 13 ≤ y.han := by
  cases y <;> simp_all [Yaku.isYakuman] <;> decide

end Agari

namespace Agari

/-- C8 (amended): whenever yaku detection reports a limit (yakuman) result,
the returned yaku list contains only limit patterns and dora contributes 0
to the reported total han; the total han is at least 13 whenever the hand is
closed - an open hand whose detected limit patterns are all closed-only
drops them in the open-hand filter and can report less (see the
counterexample). -/
theorem C8_limit_hand_amended :
    ∀ (s : HandStructure) (counts : List Nat) (ctx : GameContext),
      (detectYakuWithContext s counts ctx).isYakuman = true →
      (∀ y ∈ (detectYakuWithContext s counts ctx).yakuList, y.isYakuman = true) ∧
      (detectYakuWithContext s counts ctx).totalHanWithDora =
        (detectYakuWithContext s counts ctx).totalHan ∧
      (ctx.isOpen = false → 13 ≤ (detectYakuWithContext s counts ctx).totalHan) := by
  intro s counts ctx hykm
  cases hhk : (detectPhase1 s counts ctx).any (fun y => y.isYakuman) with
  | false =>
    exfalso
    simp only [detectYakuWithContext, hhk] at hykm
    simp only [Bool.false_eq_true, if_false, List.any_append, Bool.or_eq_true,
      List.any_eq_true] at hykm
    rcases hykm with ⟨y, hy, hyk⟩ | ⟨y, hy, hyk⟩
    · exact absurd (List.any_eq_true.mpr ⟨y, hy, hyk⟩) (by simp [hhk])
    · exact absurd hyk (by simp [detectPhase2_not_yakuman s ctx y hy])
  | true =>
    refine ⟨?_, ?_, ?_⟩
    · intro y hy
      simp only [detectYakuWithContext, hhk] at hy
      simp only [if_true] at hy
      by_cases hopen : ctx.isOpen = true
      · rw [if_pos hopen] at hy
        exact detectPhase1_yakuman s counts ctx y (List.mem_filter.mp hy).1
      · rw [if_neg hopen] at hy
        exact detectPhase1_yakuman s counts ctx y hy
    · simp [YakuResult.totalHanWithDora, hykm]
    · intro hopen
      have hgoal : (detectYakuWithContext s counts ctx).totalHan =
          ((detectPhase1 s counts ctx).map (fun y => y.han)).sum := by
        simp [detectYakuWithContext, hhk, hopen]
      rw [hgoal]
      obtain ⟨y0, hy0, hyk0⟩ := List.any_eq_true.mp hhk
      have h13 : 13 ≤ y0.han := yakuman_han_ge y0 hyk0
      have hle : y0.han ≤ ((detectPhase1 s counts ctx).map (fun y => y.han)).sum :=
        List.single_le_sum (fun x _ => Nat.zero_le x) _ (List.mem_map_of_mem _ hy0)
      omega

end Agari

namespace Agari

/-- Closed-hand variant of the C8 input, used as witness. -/
def c8ClosedCtx : GameContext := GameContext.new .Tsumo .East .South

set_option maxHeartbeats 1000000 in
/-- C8 witness: on the closed four-concealed-triplets hand the detection
reports a limit result whose list is all limit patterns, whose dora
contribution is zero, and whose total han is at least 13. -/
theorem C8_limit_hand_amended_witness :
    (∀ y ∈ (detectYakuWithContext c8Struct c8Counts c8ClosedCtx).yakuList,
      y.isYakuman = true) ∧
    (detectYakuWithContext c8Struct c8Counts c8ClosedCtx).totalHanWithDora =
      (detectYakuWithContext c8Struct c8Counts c8ClosedCtx).totalHan ∧
    13 ≤ (detectYakuWithContext c8Struct c8Counts c8ClosedCtx).totalHan :=
  ⟨(C8_limit_hand_amended c8Struct c8Counts c8ClosedCtx (by decide)).1,
   (C8_limit_hand_amended c8Struct c8Counts c8ClosedCtx (by decide)).2.1,
   (C8_limit_hand_amended c8Struct c8Counts c8ClosedCtx (by decide)).2.2 rfl⟩

end Agari

namespace Agari

/-!  Lemmas on the winning-tile inference fold, used for claim C6. -/

theorem tupleGt_eq_true_iff (a b : Nat × Nat × Nat) :
    tupleGt a b = true ↔
      (b.1 < a.1 ∨ (a.1 = b.1 ∧ (b.2.1 < a.2.1 ∨ (a.2.1 = b.2.1 ∧ b.2.2 < a.2.2)))) := by
  simp [tupleGt, Bool.or_eq_true, Bool.and_eq_true, decide_eq_true_eq]

theorem tupleGt_self (a : Nat × Nat × Nat) : tupleGt a a = false := by
  rw [Bool.eq_false_iff]
  intro h
  rw [tupleGt_eq_true_iff] at h
  omega

theorem tupleGt_false_trans (x b c : Nat × Nat × Nat) (h1 : tupleGt x b = false)
    (h2 : tupleGt c b = true) : tupleGt x c = false := by
  rw [Bool.eq_false_iff]
  intro h
  rw [tupleGt_eq_true_iff] at h h2
  have h1' : ¬ (b.1 < x.1 ∨ (x.1 = b.1 ∧ (b.2.1 < x.2.1 ∨ (x.2.1 = b.2.1 ∧ b.2.2 < x.2.2)))) := by
    rw [← tupleGt_eq_true_iff]
    simp [h1]
  omega

/-- Invariant of the inference fold: once some candidate has been processed
the best tuple is set, the collected results are exactly candidates
achieving it, and no processed candidate beats it. -/
def inferGood (base : GameContext) (counts : List Nat)
    (dom : List (Tile × HandStructure)) (st : InferState) : Prop :=
  match st.2.2 with
  | none => st.1 = [] ∧ dom = []
  | some b =>
    st.1 ≠ [] ∧
    (∀ r ∈ st.1, scoreTupleOf r = b ∧ ∃ p ∈ dom, r = evalCandidate base counts p.1 p.2) ∧
    (∀ p ∈ dom, tupleGt (scoreTupleOf (evalCandidate base counts p.1 p.2)) b = false)

theorem inferStep_good (base : GameContext) (counts : List Nat) (t : Tile)
    (s : HandStructure) (dom : List (Tile × HandStructure)) (st : InferState)
    (h : inferGood base counts dom st) :
    inferGood base counts (dom ++ [(t, s)]) (inferStep base counts t st s) := by
  obtain ⟨l, c0, ob⟩ := st
  cases ob with
  | none =>
    obtain ⟨hl, hdom⟩ := h
    subst hdom
    have hl' : l = [] := hl
    subst hl' 
    have hstep : inferStep base counts t (([] : List InferEntry), c0, none) s =
        ([evalCandidate base counts t s], { base with winningTile := some t },
          some (scoreTupleOf (evalCandidate base counts t s))) := by
      simp [inferStep]
    rw [hstep]
    refine ⟨by simp, ?_, ?_⟩
    · intro r hr
      rw [List.mem_singleton] at hr
      subst hr
      exact ⟨rfl, ⟨(t, s), by simp⟩⟩
    · intro p hp
      simp only [List.nil_append, List.mem_singleton] at hp
      subst hp
      exact tupleGt_self _
  | some b =>
    obtain ⟨hne, hmem, hdom⟩ := h
    cases hgt : tupleGt (scoreTupleOf (evalCandidate base counts t s)) b with
    | true =>
      have hstep : inferStep base counts t (l, c0, some b) s =
          ([evalCandidate base counts t s], { base with winningTile := some t },
            some (scoreTupleOf (evalCandidate base counts t s))) := by
        simp [inferStep, hgt]
      rw [hstep]
      refine ⟨by simp, ?_, ?_⟩
      · intro r hr
        rw [List.mem_singleton] at hr
        subst hr
        exact ⟨rfl, ⟨(t, s), by simp⟩⟩
      · intro p hp
        rw [List.mem_append] at hp
        rcases hp with hp | hp
        · exact tupleGt_false_trans _ _ _ (hdom p hp) hgt
        · rw [List.mem_singleton] at hp
          subst hp
          exact tupleGt_self _
    | false =>
      by_cases hbc : b = scoreTupleOf (evalCandidate base counts t s)
      · subst hbc
        have hstep : inferStep base counts t
              (l, c0, some (scoreTupleOf (evalCandidate base counts t s))) s =
            (l ++ [evalCandidate base counts t s], c0,
              some (scoreTupleOf (evalCandidate base counts t s))) := by
          simp [inferStep, hgt]
        rw [hstep]
        refine ⟨by simp [hne], ?_, ?_⟩
        · intro r hr
          rw [List.mem_append] at hr
          rcases hr with hr | hr
          · obtain ⟨h1, p, hp, h2⟩ := hmem r hr
            exact ⟨h1, p, List.mem_append_left _ hp, h2⟩
          · rw [List.mem_singleton] at hr
            subst hr
            exact ⟨rfl, ⟨(t, s), by simp⟩⟩
        · intro p hp
          rw [List.mem_append] at hp
          rcases hp with hp | hp
          · exact hdom p hp
          · rw [List.mem_singleton] at hp
            subst hp
            exact hgt
      · have hstep : inferStep base counts t (l, c0, some b) s = (l, c0, some b) := by
          simp [inferStep, hgt, hbc]
        rw [hstep]
        refine ⟨hne, ?_, ?_⟩
        · intro r hr
          obtain ⟨h1, p, hp, h2⟩ := hmem r hr
          exact ⟨h1, p, List.mem_append_left _ hp, h2⟩
        · intro p hp
          rw [List.mem_append] at hp
          rcases hp with hp | hp
          · exact hdom p hp
          · rw [List.mem_singleton] at hp
            subst hp
            exact hgt

theorem inferInner_good (base : GameContext) (counts : List Nat) (t : Tile)
    (ss : List HandStructure) (dom : List (Tile × HandStructure)) (st : InferState)
    (h : inferGood base counts dom st) :
    inferGood base counts (dom ++ ss.map (fun s => (t, s)))
      (ss.foldl (inferStep base counts t) st) := by
  induction ss generalizing dom st with
  | nil => simpa using h
  | cons s rest ih =>
    have h1 := inferStep_good base counts t s dom st h
    have h2 := ih (dom ++ [(t, s)]) _ h1
    simpa [List.append_assoc] using h2

theorem inferOuter_good (base : GameContext) (counts : List Nat)
    (structures : List HandStructure) (ts : List Tile)
    (dom : List (Tile × HandStructure)) (st : InferState)
    (h : inferGood base counts dom st) :
    inferGood base counts (dom ++ ts.flatMap (fun t => structures.map (fun s => (t, s))))
      (ts.foldl (fun st t => structures.foldl (inferStep base counts t) st) st) := by
  induction ts generalizing dom st with
  | nil => simpa using h
  | cons t rest ih =>
    have h1 := inferInner_good base counts t structures dom st h
    have h2 := ih (dom ++ structures.map (fun s => (t, s))) _ h1
    simpa [List.append_assoc] using h2

end Agari

namespace Agari

/-- C6 (amended): when no winning tile is supplied, the engine tries every
distinct tile of the hand as winning tile against every decomposition and
collects exactly the candidates maximizing (payment total, han, 255 - fu)
lexicographically: every returned entry is such a candidate and no candidate
strictly beats it.  Decompositions with an empty yaku list are NOT skipped:
they compete like any other and can be returned (see the counterexample). -/
theorem C6_inference_amended :
    ∀ (structures : List HandStructure) (counts : List Nat) (base : GameContext)
      (tiles : List Tile),
      tiles ≠ [] → structures ≠ [] →
      (inferBestWinningTile structures counts base tiles).1 ≠ [] ∧
      ∀ r ∈ (inferBestWinningTile structures counts base tiles).1,
        (∃ t ∈ tiles.dedup, ∃ s ∈ structures, r = evalCandidate base counts t s) ∧
        ∀ t ∈ tiles.dedup, ∀ s ∈ structures,
          tupleGt (scoreTupleOf (evalCandidate base counts t s)) (scoreTupleOf r) = false := by
  intro structures counts base tiles htn hsn
  have h0 : inferGood base counts []
      ((([] : List InferEntry), base, (none : Option (Nat × Nat × Nat)))) := ⟨rfl, rfl⟩
  have hg := inferOuter_good base counts structures tiles.dedup []
      ((([] : List InferEntry), base, (none : Option (Nat × Nat × Nat)))) h0
  rw [List.nil_append] at hg
  obtain ⟨t0, ht0⟩ := List.exists_mem_of_ne_nil tiles htn
  obtain ⟨s0, hs0⟩ := List.exists_mem_of_ne_nil structures hsn
  have hdomne : (t0, s0) ∈ tiles.dedup.flatMap (fun t => structures.map (fun s => (t, s))) :=
    List.mem_flatMap.mpr ⟨t0, List.mem_dedup.mpr ht0, List.mem_map.mpr ⟨s0, hs0, rfl⟩⟩
  cases hb : (tiles.dedup.foldl (fun st t => structures.foldl (inferStep base counts t) st)
      ((([] : List InferEntry), base, (none : Option (Nat × Nat × Nat))))).2.2 with
  | none =>
    exfalso
    unfold inferGood at hg
    rw [hb] at hg
    rw [hg.2] at hdomne
    exact absurd hdomne (List.not_mem_nil _)
  | some b =>
    unfold inferGood at hg
    rw [hb] at hg
    obtain ⟨hne1, hmem, hdom⟩ := hg
    have hres : (inferBestWinningTile structures counts base tiles).1 =
        (tiles.dedup.foldl (fun st t => structures.foldl (inferStep base counts t) st)
          ((([] : List InferEntry), base, (none : Option (Nat × Nat × Nat))))).1 := by
      simp only [inferBestWinningTile]
      rw [if_neg (by simp [List.isEmpty_iff, hne1])]
    refine ⟨by rw [hres]; exact hne1, ?_⟩
    intro r hr
    rw [hres] at hr
    obtain ⟨htup, p, hp, hpe⟩ := hmem r hr
    constructor
    · obtain ⟨t, htd, hpm⟩ := List.mem_flatMap.mp hp
      obtain ⟨s, hss, heq⟩ := List.mem_map.mp hpm
      cases heq
      exact ⟨t, htd, s, hss, hpe⟩
    · intro t htd s hss
      have hc := hdom (t, s) (List.mem_flatMap.mpr ⟨t, htd, List.mem_map.mpr ⟨s, hss, rfl⟩⟩)
      rw [htup]
      exact hc

/-- Melds of the C6 counterexample: four closed sequences. -/
def c6Melds : List Meld :=
  [.Shuntsu (.Suited .Man 1) false, .Shuntsu (.Suited .Pin 4) false,
   .Shuntsu (.Suited .Sou 2) false, .Shuntsu (.Suited .Sou 7) false]

/-- Decomposition of the C6 counterexample, pair East. -/
def c6Struct : HandStructure := .Standard c6Melds (.Honor .East)

/-- Tile multiset of the C6 counterexample. -/
def c6Counts : List Nat :=
  [1, 1, 1, 0, 0, 0, 0, 0, 0, 0, 0, 0, 1, 1, 1, 0, 0, 0,
   1, 1, 1, 0, 0, 0, 1, 1, 1, 2, 0, 0, 0, 0, 0, 0]

/-- Tile list of the C6 counterexample hand. -/
def c6Tiles : List Tile :=
  [.Suited .Man 1, .Suited .Man 2, .Suited .Man 3,
   .Suited .Pin 4, .Suited .Pin 5, .Suited .Pin 6,
   .Suited .Sou 2, .Suited .Sou 3, .Suited .Sou 4,
   .Suited .Sou 7, .Suited .Sou 8, .Suited .Sou 9,
   .Honor .East, .Honor .East]

/-- Base context of the C6 counterexample: win by discard, open hand, no
flags, winds West/North so that nothing yields a yaku. -/
def c6Base : GameContext :=
  { GameContext.new .Ron .West .North with isOpen := true }

set_option maxHeartbeats 8000000 in
/-- C6 counterexample: the inference returns a non-empty result list whose
every selected entry has an empty yaku list - a zero-yaku decomposition is
selected, contradicting the claim that such decompositions are skipped and
can never be the selected result. -/
theorem C6_counterexample_eval :
    ((inferBestWinningTile [c6Struct] c6Counts c6Base c6Tiles).1.isEmpty = false) ∧
    ((inferBestWinningTile [c6Struct] c6Counts c6Base c6Tiles).1.all
      (fun r => r.2.1.yakuList.isEmpty)) = true :=
  ⟨by decide, by decide⟩

/-- C6 witness: the amended characterization applied to the concrete input
of the counterexample. -/
theorem C6_inference_amended_witness :
    (inferBestWinningTile [c6Struct] c6Counts c6Base c6Tiles).1 ≠ [] ∧
    ∀ r ∈ (inferBestWinningTile [c6Struct] c6Counts c6Base c6Tiles).1,
      (∃ t ∈ c6Tiles.dedup, ∃ s ∈ [c6Struct], r = evalCandidate c6Base c6Counts t s) ∧
      ∀ t ∈ c6Tiles.dedup, ∀ s ∈ [c6Struct],
        tupleGt (scoreTupleOf (evalCandidate c6Base c6Counts t s)) (scoreTupleOf r) = false :=
  C6_inference_amended [c6Struct] c6Counts c6Base c6Tiles (by decide) (by decide)

end Agari

namespace Agari

/-- Number of tiles of index `j` contained in a meld: three consecutive
indices for a sequence, three copies for a triplet, four for a kan. -/
def meldContrib (m : Meld) (j : Nat) : Nat :=
  match m with
  | .Shuntsu t _ =>
    (if tileToIndex t = j then 1 else 0) + (if tileToIndex t + 1 = j then 1 else 0) +
      (if tileToIndex t + 2 = j then 1 else 0)
  | .Koutsu t _ => if tileToIndex t = j then 3 else 0
  | .Kan t _ => if tileToIndex t = j then 4 else 0

theorem lt_length_of_cget_ne_zero (l : List Nat) (i : Nat) (h : cget l i ≠ 0) :
    i < l.length := by
  by_contra hc
  exact h (cget_eq_zero_of_ge l i (by omega))

theorem findIdx_cget_ne_zero (l : List Nat) (h : l.sum ≠ 0) :
    cget l (l.findIdx (fun c => c != 0)) ≠ 0 := by
  induction l with
  | nil => simp at h
  | cons a t ih =>
    by_cases ha : a = 0
    · subst ha
      rw [List.sum_cons, Nat.zero_add] at h
      simpa [List.findIdx_cons, cget_cons_succ] using ih h
    · have hb : (a != 0) = true := by simpa using ha
      simp [List.findIdx_cons, hb, cget_cons_zero, ha]

theorem tileToIndex_indexToTile : ∀ i, i < 34 → tileToIndex (indexToTile i) = i := by decide

/-- Every meld list produced by `findAllMeldCombinations` consumes the input
counts exactly: at every index the meld tiles add back up to the count. -/
theorem findAll_reconstruct :
    ∀ (needed : Nat) (counts : List Nat) (melds : List Meld),
      counts.length = 34 →
      melds ∈ findAllMeldCombinations counts needed →
      ∀ j, (melds.map (fun m => meldContrib m j)).sum = cget counts j := by
  intro needed
  induction needed with
  | zero =>
    intro counts melds hlen hm j
    simp only [findAllMeldCombinations] at hm
    split at hm
    · rename_i hs
      rw [List.mem_singleton] at hm
      subst hm
      simp [sum_eq_zero_cget counts hs j]
    · cases hm
  | succ needed ih =>
    intro counts melds hlen hm j
    simp only [findAllMeldCombinations] at hm
    split at hm
    · cases hm
    · rename_i hs
      have hne : cget counts (counts.findIdx (fun c => c != 0)) ≠ 0 :=
        findIdx_cget_ne_zero counts hs
      have hiL : counts.findIdx (fun c => c != 0) < counts.length :=
        lt_length_of_cget_ne_zero _ _ hne
      have hi34 : counts.findIdx (fun c => c != 0) < 34 := hlen ▸ hiL
      have hrt : tileToIndex (indexToTile (counts.findIdx (fun c => c != 0))) =
          counts.findIdx (fun c => c != 0) := tileToIndex_indexToTile _ hi34
      rw [List.mem_append] at hm
      rcases hm with hm | hm
      · -- triplet branch
        split at hm
        · rename_i h3
          rw [List.mem_map] at hm
          obtain ⟨sub, hsub, heq⟩ := hm
          cases heq
          have hlen2 : (cset counts (counts.findIdx (fun c => c != 0))
              (cget counts (counts.findIdx (fun c => c != 0)) - 3)).length = 34 := by
            rw [length_cset]; exact hlen
          have hrec := ih _ sub hlen2 hsub j
          rw [List.map_cons, List.sum_cons, hrec]
          simp only [meldContrib, hrt, cget_cset]
          by_cases hji : counts.findIdx (fun c => c != 0) = j
          · subst hji
            simp only [hiL, and_self, if_true, if_pos rfl]
            omega
          · simp [hji]
        · cases hm
      · -- sequence branch
        split at hm
        · rename_i hguard
          split at hm
          · rename_i hadj
            rw [List.mem_map] at hm
            obtain ⟨sub, hsub, heq⟩ := hm
            cases heq
            have h1L : counts.findIdx (fun c => c != 0) + 1 < counts.length :=
              lt_length_of_cget_ne_zero _ _ (by omega)
            have h2L : counts.findIdx (fun c => c != 0) + 2 < counts.length :=
              lt_length_of_cget_ne_zero _ _ (by omega)
            have hlen2 : (cset (cset (cset counts (counts.findIdx (fun c => c != 0))
                (cget counts (counts.findIdx (fun c => c != 0)) - 1))
                (counts.findIdx (fun c => c != 0) + 1)
                (cget counts (counts.findIdx (fun c => c != 0) + 1) - 1))
                (counts.findIdx (fun c => c != 0) + 2)
                (cget counts (counts.findIdx (fun c => c != 0) + 2) - 1)).length = 34 := by
              rw [length_cset, length_cset, length_cset]; exact hlen
            have hrec := ih _ sub hlen2 hsub j
            rw [List.map_cons, List.sum_cons, hrec]
            simp only [meldContrib, hrt, cget_cset, length_cset]
            by_cases hj0 : counts.findIdx (fun c => c != 0) = j
            · subst hj0
              simp only [hiL, and_self, if_true, if_pos rfl]
              have hx1 : ¬(counts.findIdx (fun c => c != 0) + 2 =
                  counts.findIdx (fun c => c != 0)) := by omega
              have hx2 : ¬(counts.findIdx (fun c => c != 0) + 1 =
                  counts.findIdx (fun c => c != 0)) := by omega
              simp only [hx1, hx2, false_and, if_false]
              omega
            · by_cases hj1 : counts.findIdx (fun c => c != 0) + 1 = j
              · subst hj1
                repeat' split
                all_goals omega
              · by_cases hj2 : counts.findIdx (fun c => c != 0) + 2 = j
                · subst hj2
                  repeat' split
                  all_goals omega
                · simp [hj0, hj1, hj2]
          · cases hm
        · cases hm

end Agari

namespace Agari

theorem mem_foldl_ite_append {α : Type} (p : Nat → Prop) [DecidablePred p]
    (f : Nat → List α) :
    ∀ (L : List Nat) (init : List α) (s : α),
      (s ∈ L.foldl (fun acc i => if p i then acc ++ f i else acc) init ↔
        s ∈ init ∨ ∃ i ∈ L, p i ∧ s ∈ f i) := by
  intro L
  induction L with
  | nil => intro init s; simp
  | cons a t ih =>
    intro init s
    rw [List.foldl_cons]
    by_cases hp : p a
    · rw [if_pos hp, ih, List.mem_append]
      constructor
      · rintro ((h | h) | ⟨i, hi, hpi, hf⟩)
        · exact Or.inl h
        · exact Or.inr ⟨a, List.mem_cons_self a t, hp, h⟩
        · exact Or.inr ⟨i, List.mem_cons_of_mem a hi, hpi, hf⟩
      · rintro (h | ⟨i, hi, hpi, hf⟩)
        · exact Or.inl (Or.inl h)
        · rcases List.mem_cons.mp hi with heq | hi
          · subst heq; exact Or.inl (Or.inr hf)
          · exact Or.inr ⟨i, hi, hpi, hf⟩
    · rw [if_neg hp, ih]
      constructor
      · rintro (h | ⟨i, hi, hpi, hf⟩)
        · exact Or.inl h
        · exact Or.inr ⟨i, List.mem_cons_of_mem a hi, hpi, hf⟩
      · rintro (h | ⟨i, hi, hpi, hf⟩)
        · exact Or.inl h
        · rcases List.mem_cons.mp hi with heq | hi
          · subst heq; exact absurd hpi hp
          · exact Or.inr ⟨i, hi, hpi, hf⟩

/-- Membership characterization of `decomposeHand`: a decomposition is a
kokushi result, the chiitoitsu result, or a standard result built from a
pair index and a `findAllMeldCombinations` meld list. -/
theorem mem_decomposeHand (counts : List Nat) (s : HandStructure) :
    s ∈ decomposeHand counts ↔
      ((∃ pair, checkKokushi counts = some pair ∧ s = .Kokushi pair) ∨
        (isChiitoitsu counts = true ∧
          s = .Chiitoitsu (((List.range counts.length).filter
            (fun i => cget counts i != 0)).map indexToTile))) ∨
      (∃ i, i ∈ List.range counts.length ∧ 2 ≤ cget counts i ∧
        ∃ melds, melds ∈ findAllMeldCombinations (cset counts i (cget counts i - 2)) 4 ∧
          HandStructure.Standard (melds.insertionSort meldTileLE) (indexToTile i) = s) := by
  simp only [decomposeHand]
  rw [List.mem_append, List.mem_append]
  refine or_congr (or_congr ?_ ?_) ?_
  · cases hk : checkKokushi counts <;> simp [hk]
  · by_cases hc : isChiitoitsu counts <;> simp [hc]
  · refine Iff.trans (mem_foldl_ite_append (fun i => 2 ≤ cget counts i)
      (fun i => (findAllMeldCombinations (cset counts i (cget counts i - 2)) 4).map
        (fun melds => HandStructure.Standard (melds.insertionSort meldTileLE)
          (indexToTile i))) (List.range counts.length) [] s) ?_
    simp only [List.mem_map, List.not_mem_nil, false_or]

/-- Membership characterization of `decomposeHandWithMelds`. -/
theorem mem_decomposeHandWithMelds (handTiles : List Nat) (calledMelds : List Meld)
    (s : HandStructure) :
    s ∈ decomposeHandWithMelds handTiles calledMelds ↔
      ∃ i, i ∈ List.range handTiles.length ∧ 2 ≤ cget handTiles i ∧
        ∃ handMelds, handMelds ∈ findAllMeldCombinations
            (cset handTiles i (cget handTiles i - 2)) (4 - calledMelds.length) ∧
          HandStructure.Standard ((calledMelds ++ handMelds).insertionSort meldTileLE)
            (indexToTile i) = s := by
  simp only [decomposeHandWithMelds]
  refine Iff.trans (mem_foldl_ite_append (fun i => 2 ≤ cget handTiles i)
    (fun i => (findAllMeldCombinations (cset handTiles i (cget handTiles i - 2))
        (4 - calledMelds.length)).map
      (fun handMelds => HandStructure.Standard
        ((calledMelds ++ handMelds).insertionSort meldTileLE) (indexToTile i)))
    (List.range handTiles.length) [] s) ?_
  simp only [List.mem_map, List.not_mem_nil, false_or]

theorem sum_indicator (l : List Nat) (j : Nat) (hnd : l.Nodup) :
    (l.map (fun i => if i = j then 1 else 0)).sum = if j ∈ l then 1 else 0 := by
  induction l with
  | nil => simp
  | cons a t ih =>
    rw [List.map_cons, List.sum_cons, ih (List.nodup_cons.mp hnd).2]
    by_cases ha : a = j
    · subst ha
      have : a ∉ t := (List.nodup_cons.mp hnd).1
      simp [this]
    · simp [ha, List.mem_cons, Ne.symm ha]

end Agari

namespace Agari

theorem chiitoitsu_reconstruct (counts : List Nat) (hlen : counts.length = 34)
    (hc : isChiitoitsu counts = true) (j : Nat) :
    2 * ((((List.range counts.length).filter (fun i => cget counts i != 0)).map
        indexToTile).map (fun t => if tileToIndex t = j then 1 else 0)).sum =
      cget counts j := by
  rw [List.map_map]
  have hmapeq : (((List.range counts.length).filter (fun i => cget counts i != 0)).map
      ((fun t => if tileToIndex t = j then 1 else 0) ∘ indexToTile)) =
      (((List.range counts.length).filter (fun i => cget counts i != 0)).map
        (fun i => if i = j then 1 else 0)) := by
    apply List.map_congr_left
    intro i hi
    have hi34 : i < 34 := by
      have := List.mem_range.mp (List.mem_filter.mp hi).1
      omega
    simp [Function.comp, tileToIndex_indexToTile i hi34]
  rw [hmapeq, sum_indicator _ _ (List.Nodup.filter _ (List.nodup_range _))]
  unfold isChiitoitsu at hc
  rw [Bool.and_eq_true] at hc
  have hall := hc.2
  rw [List.all_eq_true] at hall
  by_cases hz : cget counts j = 0
  · rw [if_neg, hz, Nat.mul_zero]
    intro hmem
    have hpz := (List.mem_filter.mp hmem).2
    simp [hz] at hpz
  · have hjlen : j < counts.length := lt_length_of_cget_ne_zero counts j hz
    have hmem : j ∈ (List.range counts.length).filter (fun i => cget counts i != 0) :=
      List.mem_filter.mpr ⟨List.mem_range.mpr hjlen, by simpa using hz⟩
    rw [if_pos hmem, Nat.mul_one]
    have hin : cget counts j ∈ counts.filter (fun c => c != 0) := by
      rw [List.mem_filter]
      refine ⟨?_, by simpa using hz⟩
      rw [cget, List.getD_eq_getElem counts 0 hjlen]
      exact List.getElem_mem hjlen
    have h2 := hall _ hin
    rw [beq_iff_eq] at h2
    omega

theorem kokushiPairLoop_some_acc (counts : List Nat) :
    ∀ (ts : List Tile) (a : Tile) (p : Option Tile),
      kokushiPairLoop counts ts (some a) = some p →
      p = some a ∧ ∀ t ∈ ts, cget counts (tileToIndex t) < 2 := by
  intro ts
  induction ts with
  | nil =>
    intro a p h
    simp only [kokushiPairLoop, Option.some.injEq] at h
    exact ⟨h.symm, by simp⟩
  | cons t rest ih =>
    intro a p h
    simp only [kokushiPairLoop] at h
    split at h
    · simp at h
    · split at h
      · cases h
      · rename_i hne hle
        obtain ⟨hp, hrest⟩ := ih a p h
        refine ⟨hp, ?_⟩
        intro t' ht'
        rcases List.mem_cons.mp ht' with heq | ht'
        · subst heq; omega
        · exact hrest t' ht'

theorem kokushiPairLoop_some_none (counts : List Nat) :
    ∀ (ts : List Tile) (p : Option Tile),
      kokushiPairLoop counts ts none = some p →
      (∀ t ∈ ts, cget counts (tileToIndex t) ≤ 2) ∧
      (∀ t ∈ ts, cget counts (tileToIndex t) = 2 → p = some t) ∧
      (∀ t, p = some t → t ∈ ts ∧ cget counts (tileToIndex t) = 2) := by
  intro ts
  induction ts with
  | nil =>
    intro p h
    simp only [kokushiPairLoop, Option.some.injEq] at h
    refine ⟨by simp, by simp, ?_⟩
    intro t hpt
    rw [← h] at hpt
    cases hpt
  | cons t rest ih =>
    intro p h
    simp only [kokushiPairLoop] at h
    split at h
    · rename_i h2
      obtain ⟨hp, hrest⟩ := kokushiPairLoop_some_acc counts rest t p h
      subst hp
      refine ⟨?_, ?_, ?_⟩
      · intro t' ht'
        rcases List.mem_cons.mp ht' with heq | ht'
        · subst heq; omega
        · have := hrest t' ht'; omega
      · intro t' ht' hc2
        rcases List.mem_cons.mp ht' with heq | ht'
        · subst heq; rfl
        · have := hrest t' ht'; omega
      · intro t' hpt
        have heq := Option.some.inj hpt
        subst heq
        exact ⟨List.mem_cons_self t rest, h2⟩
    · split at h
      · cases h
      · rename_i hne hle
        obtain ⟨hA, hB, hC⟩ := ih p h
        refine ⟨?_, ?_, ?_⟩
        · intro t' ht'
          rcases List.mem_cons.mp ht' with heq | ht'
          · subst heq; omega
          · exact hA t' ht'
        · intro t' ht' hc2
          rcases List.mem_cons.mp ht' with heq | ht'
          · subst heq; omega
          · exact hB t' ht' hc2
        · intro t' hpt
          obtain ⟨hmem, hc2⟩ := hC t' hpt
          exact ⟨List.mem_cons_of_mem t hmem, hc2⟩

theorem checkKokushi_facts (counts : List Nat) (pair : Tile)
    (h : checkKokushi counts = some pair) :
    (∀ t ∈ kokushiTiles, cget counts (tileToIndex t) ≠ 0) ∧
    (∀ i, cget counts i ≠ 0 →
      i < counts.length ∧ (indexToTile i).isTerminalOrHonor = true) ∧
    (∀ t ∈ kokushiTiles, cget counts (tileToIndex t) ≤ 2) ∧
    (∀ t ∈ kokushiTiles, cget counts (tileToIndex t) = 2 → t = pair) ∧
    (pair ∈ kokushiTiles ∧ cget counts (tileToIndex pair) = 2) := by
  simp only [checkKokushi] at h
  split at h
  · cases h
  rename_i hsum
  split at h
  · cases h
  rename_i hk0
  split at h
  · cases h
  rename_i hterm
  split at h
  · cases h
  · rename_i p hloop
    subst h
    obtain ⟨hA, hB, hC⟩ := kokushiPairLoop_some_none counts kokushiTiles _ hloop
    obtain ⟨hmem, h2⟩ := hC pair rfl
    refine ⟨?_, ?_, hA, ?_, hmem, h2⟩
    · intro t ht hz
      exact hk0 (List.any_eq_true.mpr ⟨t, ht, by simpa using hz⟩)
    · intro i hi
      have hiL := lt_length_of_cget_ne_zero counts i hi
      refine ⟨hiL, ?_⟩
      by_contra hth
      exact hterm (List.any_eq_true.mpr ⟨i, List.mem_range.mpr hiL, by
        simp [hi, hth]⟩)
    · intro t ht hc2
      exact (Option.some.inj (hB t ht hc2)).symm

theorem kokushi_map_nodup : (kokushiTiles.map tileToIndex).Nodup := by decide

theorem terminalOrHonor_mem_kokushi :
    ∀ j, j < 34 → (indexToTile j).isTerminalOrHonor = true →
      indexToTile j ∈ kokushiTiles := by decide

theorem kokushi_reconstruct (counts : List Nat) (hlen : counts.length = 34) (pair : Tile)
    (h : checkKokushi counts = some pair) (j : Nat) :
    (kokushiTiles.map (fun t => if tileToIndex t = j then 1 else 0)).sum +
      (if tileToIndex pair = j then 1 else 0) = cget counts j := by
  obtain ⟨hnz, hTH, hle2, huniq, hpmem, hp2⟩ := checkKokushi_facts counts pair h
  have hsum : (kokushiTiles.map (fun t => if tileToIndex t = j then 1 else 0)).sum =
      if j ∈ kokushiTiles.map tileToIndex then 1 else 0 := by
    rw [← sum_indicator (kokushiTiles.map tileToIndex) j kokushi_map_nodup, List.map_map]
    rfl
  rw [hsum]
  by_cases hj : j ∈ kokushiTiles.map tileToIndex
  · rw [if_pos hj]
    obtain ⟨t, htk, hti⟩ := List.mem_map.mp hj
    subst hti
    have hge1 : cget counts (tileToIndex t) ≠ 0 := hnz t htk
    have hle : cget counts (tileToIndex t) ≤ 2 := hle2 t htk
    by_cases hpt : pair = t
    · subst hpt
      rw [if_pos rfl, hp2]
    · rw [if_neg ?_]
      · have hne2 : cget counts (tileToIndex t) ≠ 2 := fun h2 => hpt ((huniq t htk h2).symm)
        omega
      · intro he
        -- tileToIndex is injective on the kokushi tiles
        have hinj : ∀ a ∈ kokushiTiles, ∀ b ∈ kokushiTiles,
            tileToIndex a = tileToIndex b → a = b := by decide
        exact hpt (hinj pair hpmem t htk he)
  · rw [if_neg hj, if_neg ?_]
    · have hz : cget counts j = 0 := by
        by_contra hz0
        obtain ⟨hjL, hth⟩ := hTH j hz0
        have hj34 : j < 34 := by omega
        have hmemk := terminalOrHonor_mem_kokushi j hj34 hth
        exact hj (tileToIndex_indexToTile j hj34 ▸ List.mem_map_of_mem tileToIndex hmemk)
      omega
    · intro he
      exact hj (he ▸ List.mem_map_of_mem tileToIndex hpmem)

end Agari

namespace Agari

/-- C2: every decomposition returned by `decomposeHand` (kokushi, chiitoitsu
or standard shape) and every decomposition returned by
`decomposeHandWithMelds` reconstructs the input multiset exactly: at every
tile index the tiles of its melds plus its pair add up to the input count
(plus, in the called-meld case, the called melds' tiles on both sides). -/
theorem C2_decomposition_reconstruction :
    ∀ (counts : List Nat), counts.length = 34 →
      (∀ s ∈ decomposeHand counts,
        match s with
        | .Standard melds pair => ∀ j,
            (melds.map (fun m => meldContrib m j)).sum +
              (if tileToIndex pair = j then 2 else 0) = cget counts j
        | .Chiitoitsu pairs => ∀ j,
            2 * (pairs.map (fun t => if tileToIndex t = j then 1 else 0)).sum =
              cget counts j
        | .Kokushi pair => ∀ j,
            (kokushiTiles.map (fun t => if tileToIndex t = j then 1 else 0)).sum +
              (if tileToIndex pair = j then 1 else 0) = cget counts j) ∧
      (∀ (calledMelds : List Meld), ∀ s ∈ decomposeHandWithMelds counts calledMelds,
        ∃ melds pair, s = .Standard melds pair ∧ ∀ j,
          (melds.map (fun m => meldContrib m j)).sum +
            (if tileToIndex pair = j then 2 else 0) =
          cget counts j + (calledMelds.map (fun m => meldContrib m j)).sum) := by
  intro counts hlen
  constructor
  · intro s hs
    rw [mem_decomposeHand] at hs
    rcases hs with (⟨pair, hk, rfl⟩ | ⟨hc, rfl⟩) | ⟨i, hir, h2c, melds, hmf, rfl⟩
    · intro j
      exact kokushi_reconstruct counts hlen pair hk j
    · intro j
      exact chiitoitsu_reconstruct counts hlen hc j
    · intro j
      have hi34 : i < 34 := by have := List.mem_range.mp hir; omega
      have hiL : i < counts.length := by omega
      have hrt := tileToIndex_indexToTile i hi34
      have hperm := (List.perm_insertionSort meldTileLE melds).map
        (fun m => meldContrib m j)
      rw [hperm.sum_eq]
      have hlen2 : (cset counts i (cget counts i - 2)).length = 34 := by
        rw [length_cset]; exact hlen
      rw [findAll_reconstruct 4 _ melds hlen2 hmf j, hrt, cget_cset]
      by_cases hij : i = j
      · subst hij
        simp only [hiL, and_self, if_true, if_pos rfl]
        omega
      · simp [hij]
  · intro calledMelds s hs
    rw [mem_decomposeHandWithMelds] at hs
    obtain ⟨i, hir, h2c, handMelds, hmf, rfl⟩ := hs
    refine ⟨_, _, rfl, ?_⟩
    intro j
    have hi34 : i < 34 := by have := List.mem_range.mp hir; omega
    have hiL : i < counts.length := by omega
    have hrt := tileToIndex_indexToTile i hi34
    have hperm := (List.perm_insertionSort meldTileLE (calledMelds ++ handMelds)).map
      (fun m => meldContrib m j)
    rw [hperm.sum_eq, List.map_append, List.sum_append]
    have hlen2 : (cset counts i (cget counts i - 2)).length = 34 := by
      rw [length_cset]; exact hlen
    rw [findAll_reconstruct _ _ handMelds hlen2 hmf j, hrt, cget_cset]
    by_cases hij : i = j
    · subst hij
      simp only [hiL, and_self, if_true, if_pos rfl]
      omega
    · simp only [hij, false_and, if_false]
      omega

/-- Tile counts of the C2 witness hand: 33m 444m 567p 777s 777z. -/
def c2Counts : List Nat :=
  [0, 0, 2, 3, 0, 0, 0, 0, 0, 0, 0, 0, 1, 1, 1, 0, 0, 0,
   0, 0, 0, 0, 0, 0, 3, 0, 0, 0, 0, 0, 0, 0, 0, 3]

/-- C2 witness: the reconstruction theorem applied to a concrete hand. -/
theorem C2_decomposition_reconstruction_witness :
    (∀ s ∈ decomposeHand c2Counts,
      match s with
      | .Standard melds pair => ∀ j,
          (melds.map (fun m => meldContrib m j)).sum +
            (if tileToIndex pair = j then 2 else 0) = cget c2Counts j
      | .Chiitoitsu pairs => ∀ j,
          2 * (pairs.map (fun t => if tileToIndex t = j then 1 else 0)).sum =
            cget c2Counts j
      | .Kokushi pair => ∀ j,
          (kokushiTiles.map (fun t => if tileToIndex t = j then 1 else 0)).sum +
            (if tileToIndex pair = j then 1 else 0) = cget c2Counts j) ∧
    (∀ (calledMelds : List Meld), ∀ s ∈ decomposeHandWithMelds c2Counts calledMelds,
      ∃ melds pair, s = .Standard melds pair ∧ ∀ j,
        (melds.map (fun m => meldContrib m j)).sum +
          (if tileToIndex pair = j then 2 else 0) =
        cget c2Counts j + (calledMelds.map (fun m => meldContrib m j)).sum) :=
  C2_decomposition_reconstruction c2Counts (by decide)

end Agari

namespace Agari

theorem cset_of_ge (l : List Nat) (i v : Nat) (h : l.length ≤ i) : cset l i v = l := by
  induction l generalizing i with
  | nil => rfl
  | cons a t ih =>
    cases i with
    | zero => simp at h
    | succ i => rw [cset_cons_succ, ih i (by simpa using h)]

theorem sum_cset_sub (l : List Nat) (i d : Nat) (hd : d ≤ cget l i) :
    (cset l i (cget l i - d)).sum + d = l.sum := by
  by_cases hi : i < l.length
  · have h := sum_cset l i (cget l i - d) hi
    omega
  · have h0 : cget l i = 0 := cget_eq_zero_of_ge l i (by omega)
    rw [cset_of_ge l i _ (by omega)]
    omega

theorem cget_cset_ne (l : List Nat) (i j v : Nat) (h : ¬ i = j) :
    cget (cset l i v) j = cget l j := by
  rw [cget_cset]
  simp [h]

theorem extractSeqsAt_sum (l : List Nat) (i n : Nat) (l' : List Nat)
    (h : extractSeqsAt l i = (n, l')) : 3 * n + l'.sum = l.sum := by
  simp only [extractSeqsAt] at h
  rw [Prod.mk.injEq] at h
  obtain ⟨hn, hl⟩ := h
  subst hn
  subst hl
  generalize hN : min (cget l i) (min (cget l (i + 1)) (cget l (i + 2))) = N
  have h1 : N ≤ cget l i := by omega
  have h2 : N ≤ cget l (i + 1) := by omega
  have h3 : N ≤ cget l (i + 2) := by omega
  have e1 := sum_cset_sub l i N h1
  have t1 : cget (cset l i (cget l i - N)) (i + 1) = cget l (i + 1) :=
    cget_cset_ne l i (i + 1) (cget l i - N) (by omega)
  have e2 := sum_cset_sub (cset l i (cget l i - N)) (i + 1) N (by rw [t1]; exact h2)
  rw [t1] at e2
  have t2 : cget (cset (cset l i (cget l i - N)) (i + 1) (cget l (i + 1) - N)) (i + 2) =
      cget l (i + 2) := by
    rw [cget_cset_ne (cset l i (cget l i - N)) (i + 1) (i + 2) (cget l (i + 1) - N)
      (by omega)]
    exact cget_cset_ne l i (i + 2) (cget l i - N) (by omega)
  have e3 := sum_cset_sub (cset (cset l i (cget l i - N)) (i + 1) (cget l (i + 1) - N))
    (i + 2) N (by rw [t2]; exact h3)
  rw [t2] at e3
  omega

theorem extractSeqsLoop_sum :
    ∀ (fuel : Nat) (l : List Nat) (i n : Nat) (l' : List Nat),
      extractSeqsLoop l i fuel = (n, l') → 3 * n + l'.sum = l.sum := by
  intro fuel
  induction fuel with
  | zero =>
    intro l i n l' h
    simp only [extractSeqsLoop, Prod.mk.injEq] at h
    obtain ⟨hn, hl⟩ := h
    subst hn
    subst hl
    omega
  | succ fuel ih =>
    intro l i n l' h
    simp only [extractSeqsLoop] at h
    rcases hA : extractSeqsAt l i with ⟨a, l2⟩
    rw [hA] at h
    dsimp only at h
    rcases hL : extractSeqsLoop l2 (i + 1) fuel with ⟨b, l3⟩
    rw [hL] at h
    dsimp only at h
    rw [Prod.mk.injEq] at h
    obtain ⟨hn, hl⟩ := h
    subst hn
    subst hl
    have e1 := extractSeqsAt_sum l i a l2 hA
    have e2 := ih l2 (i + 1) b l3 hL
    omega

theorem extractTripsLoop_sum :
    ∀ (fuel : Nat) (l : List Nat) (i n : Nat) (l' : List Nat),
      extractTripsLoop l i fuel = (n, l') → 3 * n + l'.sum = l.sum := by
  intro fuel
  induction fuel with
  | zero =>
    intro l i n l' h
    simp only [extractTripsLoop, Prod.mk.injEq] at h
    obtain ⟨hn, hl⟩ := h
    subst hn
    subst hl
    omega
  | succ fuel ih =>
    intro l i n l' h
    simp only [extractTripsLoop] at h
    rcases hL : extractTripsLoop (cset l i (cget l i - 3 * (cget l i / 3))) (i + 1) fuel
      with ⟨b, l3⟩
    rw [hL] at h
    dsimp only at h
    rw [Prod.mk.injEq] at h
    obtain ⟨hn, hl⟩ := h
    subst hn
    subst hl
    have e1 := sum_cset_sub l i (3 * (cget l i / 3)) (by omega)
    have e2 := ih _ (i + 1) b l3 hL
    omega

theorem pairsLoop_sum :
    ∀ (fuel : Nat) (l : List Nat) (i n : Nat) (l' : List Nat),
      pairsLoop l i fuel = (n, l') → 2 * n + l'.sum = l.sum := by
  intro fuel
  induction fuel with
  | zero =>
    intro l i n l' h
    simp only [pairsLoop, Prod.mk.injEq] at h
    obtain ⟨hn, hl⟩ := h
    subst hn
    subst hl
    omega
  | succ fuel ih =>
    intro l i n l' h
    simp only [pairsLoop] at h
    by_cases h2 : 2 ≤ cget l i
    · rw [if_pos h2] at h
      dsimp only at h
      rcases hL : pairsLoop (cset l i (cget l i - 2)) (i + 1) fuel with ⟨b, l3⟩
      rw [hL] at h
      dsimp only at h
      rw [Prod.mk.injEq] at h
      obtain ⟨hn, hl⟩ := h
      subst hn
      subst hl
      have e1 := sum_cset_sub l i 2 h2
      have e2 := ih _ (i + 1) b l3 hL
      omega
    · rw [if_neg h2] at h
      dsimp only at h
      rcases hL : pairsLoop l (i + 1) fuel with ⟨b, l3⟩
      rw [hL] at h
      dsimp only at h
      rw [Prod.mk.injEq] at h
      obtain ⟨hn, hl⟩ := h
      subst hn
      subst hl
      have e2 := ih l (i + 1) b l3 hL
      omega

theorem twoIndexRemove_sum (l : List Nat) (i j : Nat) (hij : ¬ i = j)
    (h1 : 1 ≤ cget l i) (h2 : 1 ≤ cget l j) :
    (cset (cset l i (cget l i - 1)) j (cget l j - 1)).sum + 2 = l.sum := by
  have e1 := sum_cset_sub l i 1 h1
  have t1 : cget (cset l i (cget l i - 1)) j = cget l j :=
    cget_cset_ne l i j (cget l i - 1) hij
  have e2 := sum_cset_sub (cset l i (cget l i - 1)) j 1 (by rw [t1]; exact h2)
  rw [t1] at e2
  omega

theorem adjLoop_sum :
    ∀ (fuel : Nat) (l : List Nat) (i n : Nat) (l' : List Nat),
      adjLoop l i fuel = (n, l') → 2 * n + l'.sum = l.sum := by
  intro fuel
  induction fuel with
  | zero =>
    intro l i n l' h
    simp only [adjLoop, Prod.mk.injEq] at h
    obtain ⟨hn, hl⟩ := h
    subst hn
    subst hl
    omega
  | succ fuel ih =>
    intro l i n l' h
    simp only [adjLoop] at h
    by_cases hc : 1 ≤ cget l i ∧ 1 ≤ cget l (i + 1)
    · rw [if_pos hc] at h
      dsimp only at h
      rcases hL : adjLoop (cset (cset l i (cget l i - 1)) (i + 1) (cget l (i + 1) - 1))
        (i + 1) fuel with ⟨b, l3⟩
      rw [hL] at h
      dsimp only at h
      rw [Prod.mk.injEq] at h
      obtain ⟨hn, hl⟩ := h
      subst hn
      subst hl
      have e1 := twoIndexRemove_sum l i (i + 1) (by omega) hc.1 hc.2
      have e2 := ih _ (i + 1) b l3 hL
      omega
    · rw [if_neg hc] at h
      dsimp only at h
      rcases hL : adjLoop l (i + 1) fuel with ⟨b, l3⟩
      rw [hL] at h
      dsimp only at h
      rw [Prod.mk.injEq] at h
      obtain ⟨hn, hl⟩ := h
      subst hn
      subst hl
      have e2 := ih l (i + 1) b l3 hL
      omega

theorem kanchanLoop_sum :
    ∀ (fuel : Nat) (l : List Nat) (i n : Nat) (l' : List Nat),
      kanchanLoop l i fuel = (n, l') → 2 * n + l'.sum = l.sum := by
  intro fuel
  induction fuel with
  | zero =>
    intro l i n l' h
    simp only [kanchanLoop, Prod.mk.injEq] at h
    obtain ⟨hn, hl⟩ := h
    subst hn
    subst hl
    omega
  | succ fuel ih =>
    intro l i n l' h
    simp only [kanchanLoop] at h
    by_cases hc : 1 ≤ cget l i ∧ 1 ≤ cget l (i + 2)
    · rw [if_pos hc] at h
      dsimp only at h
      rcases hL : kanchanLoop (cset (cset l i (cget l i - 1)) (i + 2) (cget l (i + 2) - 1))
        (i + 1) fuel with ⟨b, l3⟩
      rw [hL] at h
      dsimp only at h
      rw [Prod.mk.injEq] at h
      obtain ⟨hn, hl⟩ := h
      subst hn
      subst hl
      have e1 := twoIndexRemove_sum l i (i + 2) (by omega) hc.1 hc.2
      have e2 := ih _ (i + 1) b l3 hL
      omega
    · rw [if_neg hc] at h
      dsimp only at h
      rcases hL : kanchanLoop l (i + 1) fuel with ⟨b, l3⟩
      rw [hL] at h
      dsimp only at h
      rw [Prod.mk.injEq] at h
      obtain ⟨hn, hl⟩ := h
      subst hn
      subst hl
      have e2 := ih l (i + 1) b l3 hL
      omega

end Agari

namespace Agari

theorem honorsLoop_sum :
    ∀ (fuel : Nat) (l : List Nat) (i m t : Nat) (l' : List Nat),
      honorsLoop l i fuel = (m, t, l') → 3 * m + 2 * t + l'.sum = l.sum := by
  intro fuel
  induction fuel with
  | zero =>
    intro l i m t l' h
    simp only [honorsLoop, Prod.mk.injEq] at h
    obtain ⟨hm, ht, hl⟩ := h
    subst hm
    subst ht
    subst hl
    omega
  | succ fuel ih =>
    intro l i m t l' h
    simp only [honorsLoop] at h
    by_cases h3 : 3 ≤ cget l i
    · rw [if_pos h3] at h
      dsimp only at h
      have e1 := sum_cset_sub l i 3 h3
      by_cases h2 : 2 ≤ cget (cset l i (cget l i - 3)) i
      · rw [if_pos h2] at h
        dsimp only at h
        rcases hL : honorsLoop (cset (cset l i (cget l i - 3)) i
            (cget (cset l i (cget l i - 3)) i - 2)) (i + 1) fuel with ⟨ms, ts, l4⟩
        rw [hL] at h
        dsimp only at h
        rw [Prod.mk.injEq, Prod.mk.injEq] at h
        obtain ⟨hm, ht, hl⟩ := h
        subst hm
        subst ht
        subst hl
        have e2 := sum_cset_sub (cset l i (cget l i - 3)) i 2 h2
        have e3 := ih _ (i + 1) ms ts l4 hL
        omega
      · rw [if_neg h2] at h
        dsimp only at h
        rcases hL : honorsLoop (cset l i (cget l i - 3)) (i + 1) fuel with ⟨ms, ts, l4⟩
        rw [hL] at h
        dsimp only at h
        rw [Prod.mk.injEq, Prod.mk.injEq] at h
        obtain ⟨hm, ht, hl⟩ := h
        subst hm
        subst ht
        subst hl
        have e3 := ih _ (i + 1) ms ts l4 hL
        omega
    · rw [if_neg h3] at h
      dsimp only at h
      by_cases h2 : 2 ≤ cget l i
      · rw [if_pos h2] at h
        dsimp only at h
        rcases hL : honorsLoop (cset l i (cget l i - 2)) (i + 1) fuel with ⟨ms, ts, l4⟩
        rw [hL] at h
        dsimp only at h
        rw [Prod.mk.injEq, Prod.mk.injEq] at h
        obtain ⟨hm, ht, hl⟩ := h
        subst hm
        subst ht
        subst hl
        have e1 := sum_cset_sub l i 2 h2
        have e3 := ih _ (i + 1) ms ts l4 hL
        omega
      · rw [if_neg h2] at h
        dsimp only at h
        rcases hL : honorsLoop l (i + 1) fuel with ⟨ms, ts, l4⟩
        rw [hL] at h
        dsimp only at h
        rw [Prod.mk.injEq, Prod.mk.injEq] at h
        obtain ⟨hm, ht, hl⟩ := h
        subst hm
        subst ht
        subst hl
        have e3 := ih l (i + 1) ms ts l4 hL
        omega

theorem extractMeldsSequencesFirst_sum (l : List Nat) (start n : Nat) (l' : List Nat)
    (h : extractMeldsSequencesFirst l start = (n, l')) : 3 * n + l'.sum = l.sum := by
  simp only [extractMeldsSequencesFirst] at h
  rcases h1 : extractSeqsLoop l start 7 with ⟨m1, l1⟩
  rw [h1] at h
  dsimp only at h
  rcases h2 : extractTripsLoop l1 start 9 with ⟨m2, l2⟩
  rw [h2] at h
  dsimp only at h
  rw [Prod.mk.injEq] at h
  obtain ⟨hn, hl⟩ := h
  subst hn
  subst hl
  have e1 := extractSeqsLoop_sum 7 l start m1 l1 h1
  have e2 := extractTripsLoop_sum 9 l1 start m2 l2 h2
  omega

theorem extractMeldsTripletsFirst_sum (l : List Nat) (start n : Nat) (l' : List Nat)
    (h : extractMeldsTripletsFirst l start = (n, l')) : 3 * n + l'.sum = l.sum := by
  simp only [extractMeldsTripletsFirst] at h
  rcases h1 : extractTripsLoop l start 9 with ⟨m1, l1⟩
  rw [h1] at h
  dsimp only at h
  rcases h2 : extractSeqsLoop l1 start 7 with ⟨m2, l2⟩
  rw [h2] at h
  dsimp only at h
  rw [Prod.mk.injEq] at h
  obtain ⟨hn, hl⟩ := h
  subst hn
  subst hl
  have e1 := extractTripsLoop_sum 9 l start m1 l1 h1
  have e2 := extractSeqsLoop_sum 7 l1 start m2 l2 h2
  omega

theorem countSuitMelds_sum (l : List Nat) (start m t : Nat) (l' : List Nat)
    (h : countSuitMelds l start = (m, t, l')) : 3 * m + 2 * t + l'.sum = l.sum := by
  rcases h1 : extractMeldsSequencesFirst l start with ⟨m1, r1⟩
  rcases h2 : extractMeldsTripletsFirst l start with ⟨m2, r2⟩
  unfold countSuitMelds at h
  rw [h1, h2] at h
  dsimp only at h
  have e1 := extractMeldsSequencesFirst_sum l start m1 r1 h1
  have e2 := extractMeldsTripletsFirst_sum l start m2 r2 h2
  by_cases hcmp : m2 ≤ m1
  · rw [if_pos hcmp] at h
    dsimp only at h
    rcases h3 : pairsLoop r1 start 9 with ⟨t1, rem1⟩
    rw [h3] at h
    dsimp only at h
    rcases h4 : adjLoop rem1 start 8 with ⟨t2, rem2⟩
    rw [h4] at h
    dsimp only at h
    rcases h5 : kanchanLoop rem2 start 7 with ⟨t3, rem3⟩
    rw [h5] at h
    dsimp only at h
    rw [Prod.mk.injEq, Prod.mk.injEq] at h
    obtain ⟨hm, ht, hl⟩ := h
    subst hm
    subst ht
    subst hl
    have e3 := pairsLoop_sum 9 r1 start t1 rem1 h3
    have e4 := adjLoop_sum 8 rem1 start t2 rem2 h4
    have e5 := kanchanLoop_sum 7 rem2 start t3 rem3 h5
    omega
  · rw [if_neg hcmp] at h
    dsimp only at h
    rcases h3 : pairsLoop r2 start 9 with ⟨t1, rem1⟩
    rw [h3] at h
    dsimp only at h
    rcases h4 : adjLoop rem1 start 8 with ⟨t2, rem2⟩
    rw [h4] at h
    dsimp only at h
    rcases h5 : kanchanLoop rem2 start 7 with ⟨t3, rem3⟩
    rw [h5] at h
    dsimp only at h
    rw [Prod.mk.injEq, Prod.mk.injEq] at h
    obtain ⟨hm, ht, hl⟩ := h
    subst hm
    subst ht
    subst hl
    have e3 := pairsLoop_sum 9 r2 start t1 rem1 h3
    have e4 := adjLoop_sum 8 rem1 start t2 rem2 h4
    have e5 := kanchanLoop_sum 7 rem2 start t3 rem3 h5
    omega

theorem countMeldsAndTaatsu_sum (l : List Nat) (m t : Nat)
    (h : countMeldsAndTaatsu l = (m, t)) : 3 * m + 2 * t ≤ l.sum := by
  rcases h1 : countSuitMelds l 0 with ⟨mM, tM, l1⟩
  unfold countMeldsAndTaatsu at h
  rw [h1] at h
  dsimp only at h
  rcases h2 : countSuitMelds l1 9 with ⟨mP, tP, l2⟩
  rw [h2] at h
  dsimp only at h
  rcases h3 : countSuitMelds l2 18 with ⟨mS, tS, l3⟩
  rw [h3] at h
  dsimp only at h
  rcases h4 : honorsLoop l3 27 7 with ⟨mH, tH, l4⟩
  rw [h4] at h
  dsimp only at h
  rw [Prod.mk.injEq] at h
  obtain ⟨hm, ht⟩ := h
  have e1 := countSuitMelds_sum l 0 mM tM l1 h1
  have e2 := countSuitMelds_sum l1 9 mP tP l2 h2
  have e3 := countSuitMelds_sum l2 18 mS tS l3 h3
  have e4 := honorsLoop_sum 7 l3 27 mH tH l4 h4
  omega

end Agari

namespace Agari

theorem foldl_ite_lb (p : Nat → Prop) [DecidablePred p] (w : Int → Nat → Int) (lb : Int) :
    ∀ (L : List Nat) (b : Int), lb ≤ b →
      (∀ b' i, i ∈ L → p i → lb ≤ b' → lb ≤ w b' i) →
      lb ≤ L.foldl (fun best i => if p i then w best i else best) b := by
  intro L
  induction L with
  | nil =>
    intro b hb _
    simpa using hb
  | cons a t2 ih =>
    intro b hb hw
    rw [List.foldl_cons]
    by_cases hp : p a
    · rw [if_pos hp]
      exact ih _ (hw b a (List.mem_cons_self a t2) hp hb)
        (fun b' i hi hpi hb' => hw b' i (List.mem_cons_of_mem a hi) hpi hb')
    · rw [if_neg hp]
      exact ih _ hb (fun b' i hi hpi hb' => hw b' i (List.mem_cons_of_mem a hi) hpi hb')

theorem shantenValue_deficit_lb (m t : Nat) (hp : Bool) (k d : Nat) (hd : d ≠ 0)
    (htm : hp = true → m + k ≤ 3) :
    (d : Int) ≤ shantenValueWithCalled m t hp k d := by
  have hcond : ¬(4 ≤ m + k ∧ hp = true ∧ d = 0) := by
    rintro ⟨-, -, h3⟩
    exact hd h3
  unfold shantenValueWithCalled
  dsimp only
  rw [if_neg hcond]
  cases hp
  · repeat' split
    all_goals first | contradiction | omega
  · have h3 := htm rfl
    repeat' split
    all_goals first | contradiction | omega

/-- Every value produced inside `shantenValueWithCalled` is at least `-1`
(the complete-hand value). -/
theorem shantenValue_ge_neg_one (m t : Nat) (hp : Bool) (k d : Nat) :
    (-1 : Int) ≤ shantenValueWithCalled m t hp k d := by
  unfold shantenValueWithCalled
  dsimp only
  repeat' split
  all_goals first | contradiction | omega

end Agari

namespace Agari

/-- C5 (amended): the minimum hand-tile count for tenpai with `k` called
melds is `max 1 (13 - 3k)`; when the hand holds fewer tiles than that, the
missing-tile count bounds the result from below only up to the initial cap
of 8: the result is at least `min 8 deficit`, and in particular at least 1,
so neither tenpai (0) nor completion (-1) is reported while tiles are
missing.  The deficit itself is not always a lower bound: once it exceeds 8
the cap wins (see the counterexample). -/
theorem C5_deficit_amended :
    ∀ (k : Nat), ((minTenpaiTiles k : Nat) : Int) = max 1 (13 - 3 * (k : Int)) ∧
      ∀ (l : List Nat), l.sum < minTenpaiTiles k →
        min 8 (((minTenpaiTiles k - l.sum : Nat)) : Int) ≤
          calculateStandardShantenWithMelds l k ∧
        1 ≤ calculateStandardShantenWithMelds l k := by
  intro k
  constructor
  · unfold minTenpaiTiles
    split <;> omega
  · intro l hsum
    have hd : (minTenpaiTiles k - l.sum) ≠ 0 := by omega
    have hmain : min 8 (((minTenpaiTiles k - l.sum : Nat)) : Int) ≤
        calculateStandardShantenWithMelds l k := by
      unfold calculateStandardShantenWithMelds
      dsimp only
      rcases hM : countMeldsAndTaatsu l with ⟨m0, t0⟩
      dsimp only
      refine foldl_ite_lb _ _ _ (List.range 34) _ ?_ ?_
      · have hv := shantenValue_deficit_lb m0 t0 false k (minTenpaiTiles k - l.sum) hd
          (fun hb => nomatch hb)
        omega
      · intro b' i hi hp hb
        rcases hM2 : countMeldsAndTaatsu (cset l i (cget l i - 2)) with ⟨m, t⟩
        dsimp only
        have hms := countMeldsAndTaatsu_sum _ m t hM2
        have hsub := sum_cset_sub l i 2 hp
        have hmk : m + k ≤ 3 := by
          have hmt : minTenpaiTiles k = if 4 ≤ k then 1 else 13 - 3 * k := rfl
          rw [hmt] at hsum
          by_cases h4 : 4 ≤ k
          · rw [if_pos h4] at hsum
            omega
          · rw [if_neg h4] at hsum
            omega
        have hv := shantenValue_deficit_lb m t true k (minTenpaiTiles k - l.sum) hd
          (fun _ => hmk)
        omega
    exact ⟨hmain, by omega⟩

set_option maxHeartbeats 1000000 in
/-- C5 counterexample: the empty multiset with no called melds has a
tile deficit of 13, yet the standard shanten function returns 8 (its
initial cap), so the deficit is not added to the result as a lower bound
in the way the claim states. -/
theorem C5_counterexample_eval :
    minTenpaiTiles 0 - (List.replicate 34 (0 : Nat)).sum = 13 ∧
    calculateStandardShantenWithMelds (List.replicate 34 (0 : Nat)) 0 = 8 :=
  ⟨by decide, by decide⟩

set_option maxHeartbeats 1000000 in
/-- C5 witness: the amended bound applied to the empty hand with one called
meld: the minimum tenpai count is 10, the deficit is 10, and the result is
bounded below by `min 8 10 = 8` and by 1. -/
theorem C5_deficit_amended_witness :
    (((minTenpaiTiles 1 : Nat) : Int) = max 1 (13 - 3 * ((1 : Nat) : Int))) ∧
    ((List.replicate 34 (0 : Nat)).sum < minTenpaiTiles 1) ∧
    (min 8 (((minTenpaiTiles 1 - (List.replicate 34 (0 : Nat)).sum : Nat)) : Int) ≤
      calculateStandardShantenWithMelds (List.replicate 34 (0 : Nat)) 1 ∧
      1 ≤ calculateStandardShantenWithMelds (List.replicate 34 (0 : Nat)) 1) :=
  ⟨(C5_deficit_amended 1).1, by decide,
    (C5_deficit_amended 1).2 (List.replicate 34 (0 : Nat)) (by decide)⟩

end Agari

namespace Agari

theorem two_mul_pairs_le_sum : ∀ (l : List Nat),
    2 * (l.filter (fun c => 2 ≤ c)).length ≤ l.sum := by
  intro l
  induction l with
  | nil => simp
  | cons a t ih =>
    rw [List.sum_cons]
    by_cases h2 : 2 ≤ a
    · have hd : (decide (2 ≤ a)) = true := decide_eq_true h2
      rw [List.filter_cons, hd, if_pos rfl, List.length_cons]
      omega
    · have hd : (decide (2 ≤ a)) = false := decide_eq_false h2
      rw [List.filter_cons, hd, if_neg (by simp)]
      omega

theorem calculateStandardShanten_ge_neg_one (l : List Nat) (k : Nat) :
    (-1 : Int) ≤ calculateStandardShantenWithMelds l k := by
  unfold calculateStandardShantenWithMelds
  dsimp only
  rcases hM : countMeldsAndTaatsu l with ⟨m0, t0⟩
  dsimp only
  refine foldl_ite_lb _ _ _ (List.range 34) _ ?_ ?_
  · have := shantenValue_ge_neg_one m0 t0 false k (minTenpaiTiles k - l.sum)
    omega
  · intro b' i hi hp hb
    rcases hM2 : countMeldsAndTaatsu (cset l i (cget l i - 2)) with ⟨m, t⟩
    dsimp only
    have := shantenValue_ge_neg_one m t true k (minTenpaiTiles k - l.sum)
    omega

theorem calculateChiitoitsuShanten_ge (l : List Nat) (hsum : l.sum ≤ 15) :
    (-1 : Int) ≤ calculateChiitoitsuShanten l := by
  unfold calculateChiitoitsuShanten
  dsimp only
  have h2p := two_mul_pairs_le_sum l
  omega

theorem calculateKokushiShanten_ge (l : List Nat) :
    (-1 : Int) ≤ calculateKokushiShanten l := by
  unfold calculateKokushiShanten
  dsimp only
  have hle : (kokushiTiles.filter (fun t => 1 ≤ cget l (tileToIndex t))).length ≤ 13 := by
    have h := List.length_filter_le (fun t => decide (1 ≤ cget l (tileToIndex t))) kokushiTiles
    simpa using h
  split <;> omega

theorem calculateShantenWithMelds_ge (l : List Nat) (k : Nat) (hsum : l.sum ≤ 15) :
    (-1 : Int) ≤ (calculateShantenWithMelds l k).shanten := by
  have hstd := calculateStandardShanten_ge_neg_one l k
  have hchi := calculateChiitoitsuShanten_ge l hsum
  have hkok := calculateKokushiShanten_ge l
  unfold calculateShantenWithMelds
  generalize hS : calculateStandardShantenWithMelds l k = S
  generalize hC : calculateChiitoitsuShanten l = C
  generalize hK : calculateKokushiShanten l = K
  rw [hS] at hstd
  rw [hC] at hchi
  rw [hK] at hkok
  dsimp only
  split
  · exact hstd
  · split
    · exact hstd
    · split
      · exact hchi
      · exact hkok

/-- The acceptance test of shanten.rs `calculate_ukeire_with_melds` for one
tile index: fewer than four copies held, and adding one copy strictly lowers
the shanten. -/
def ukeireAccepts (l : List Nat) (k idx : Nat) : Bool :=
  decide (¬ 4 ≤ cget l idx) &&
    decide ((calculateShantenWithMelds (cset l idx (cget l idx + 1)) k).shanten <
      (calculateShantenWithMelds l k).shanten)

theorem ukeire_foldl_char (l : List Nat) (k : Nat) :
    ∀ (L : List Nat) (acc : List UkeireTile × Nat),
      L.foldl (fun acc idx =>
        if 4 ≤ cget l idx then acc
        else
          if (calculateShantenWithMelds (cset l idx (cget l idx + 1)) k).shanten <
              (calculateShantenWithMelds l k).shanten then
            (acc.1 ++ [UkeireTile.mk (indexToTile idx) (4 - cget l idx)],
              acc.2 + (4 - cget l idx))
          else acc) acc =
      (acc.1 ++ (L.filter (ukeireAccepts l k)).map
          (fun idx => UkeireTile.mk (indexToTile idx) (4 - cget l idx)),
        acc.2 + ((L.filter (ukeireAccepts l k)).map (fun idx => 4 - cget l idx)).sum) := by
  intro L
  induction L with
  | nil => intro acc; simp
  | cons a t ih =>
    intro acc
    rw [List.foldl_cons]
    by_cases h4 : 4 ≤ cget l a
    · rw [if_pos h4]
      have hacc : ukeireAccepts l k a = false := by
        have h1 : (decide (¬ 4 ≤ cget l a)) = false := decide_eq_false (not_not_intro h4)
        unfold ukeireAccepts
        rw [h1, Bool.false_and]
      rw [ih acc, List.filter_cons, hacc, if_neg (by simp)]
    · rw [if_neg h4]
      by_cases hlt : (calculateShantenWithMelds (cset l a (cget l a + 1)) k).shanten <
          (calculateShantenWithMelds l k).shanten
      · rw [if_pos hlt]
        have hacc : ukeireAccepts l k a = true := by
          have h1 : (decide (¬ 4 ≤ cget l a)) = true := decide_eq_true h4
          have h2 : (decide ((calculateShantenWithMelds (cset l a (cget l a + 1)) k).shanten <
              (calculateShantenWithMelds l k).shanten)) = true := decide_eq_true hlt
          unfold ukeireAccepts
          rw [h1, h2, Bool.true_and]
        rw [ih, List.filter_cons, hacc, if_pos rfl, List.map_cons, List.map_cons,
          List.sum_cons]
        rw [Prod.mk.injEq]
        constructor
        · rw [List.append_assoc]
          rfl
        · omega
      · rw [if_neg hlt]
        have hacc : ukeireAccepts l k a = false := by
          have h2 : (decide ((calculateShantenWithMelds (cset l a (cget l a + 1)) k).shanten <
              (calculateShantenWithMelds l k).shanten)) = false := decide_eq_false hlt
          unfold ukeireAccepts
          rw [h2, Bool.and_false]
        rw [ih acc, List.filter_cons, hacc, if_neg (by simp)]

theorem calculateUkeireWithMelds_char (l : List Nat) (k : Nat) :
    calculateUkeireWithMelds l k =
      ⟨(calculateShantenWithMelds l k).shanten,
        ((List.range 34).filter (ukeireAccepts l k)).map
          (fun idx => UkeireTile.mk (indexToTile idx) (4 - cget l idx)),
        (((List.range 34).filter (ukeireAccepts l k)).map
          (fun idx => 4 - cget l idx)).sum⟩ := by
  unfold calculateUkeireWithMelds
  dsimp only
  rw [ukeire_foldl_char l k (List.range 34) (([] : List UkeireTile), 0)]
  simp

end Agari

namespace Agari

/-- C9 (amended): the ukeire result reports the current shanten, lists
exactly the tiles with fewer than four copies held whose addition strictly
lowers the shanten - each paired with availability `4 - count` - and its
total equals the sum of the per-tile availabilities.  A complete hand
(shanten -1) yields an empty list PROVIDED the hand holds at most 14 tiles;
without that bound the statement fails (see the counterexample). -/
theorem C9_ukeire_amended :
    ∀ (l : List Nat) (k : Nat), l.length = 34 →
      (calculateUkeireWithMelds l k).shanten = (calculateShantenWithMelds l k).shanten ∧
      (calculateUkeireWithMelds l k).tiles =
        ((List.range 34).filter (ukeireAccepts l k)).map
          (fun idx => UkeireTile.mk (indexToTile idx) (4 - cget l idx)) ∧
      (calculateUkeireWithMelds l k).totalCount =
        ((calculateUkeireWithMelds l k).tiles.map (fun u => u.available)).sum ∧
      (l.sum ≤ 14 → (calculateShantenWithMelds l k).shanten = -1 →
        (calculateUkeireWithMelds l k).tiles = []) := by
  intro l k hlen
  have hc := calculateUkeireWithMelds_char l k
  refine ⟨by rw [hc], by rw [hc], ?_, ?_⟩
  · rw [hc, List.map_map]
    rfl
  · intro hsum hcompl
    rw [hc]
    dsimp only
    have hfilter : (List.range 34).filter (ukeireAccepts l k) = [] := by
      rw [List.filter_eq_nil_iff]
      intro a ha
      have ha34 : a < 34 := List.mem_range.mp ha
      intro habs
      rw [ukeireAccepts, Bool.and_eq_true, decide_eq_true_eq, decide_eq_true_eq] at habs
      have hts : (cset l a (cget l a + 1)).sum = l.sum + 1 := by
        have := sum_cset l a (cget l a + 1) (by omega)
        omega
      have hge := calculateShantenWithMelds_ge (cset l a (cget l a + 1)) k (by omega)
      rw [hcompl] at habs
      omega
    rw [hfilter]
    rfl

/-- A 15-tile multiset (1m1m 2m2m 9m 1p1p 2p2p 1s1s 2s2s 7z7z): seven pairs
plus a lone ninth man. -/
def m15Hand : List Nat :=
  [2, 2, 0, 0, 0, 0, 0, 0, 1,
   2, 2, 0, 0, 0, 0, 0, 0, 0,
   2, 2, 0, 0, 0, 0, 0, 0, 0,
   0, 0, 0, 0, 0, 0, 2]

set_option maxHeartbeats 8000000 in
/-- C9 counterexample: the 15-tile hand `m15Hand` is complete (shanten -1,
seven pairs) and yet its ukeire list is not empty: drawing the ninth man
makes an eighth pair and lowers the chiitoitsu shanten below -1, so a
complete hand does not always yield an empty ukeire list. -/
theorem C9_counterexample_eval :
    (calculateShanten m15Hand).shanten = -1 ∧
    (calculateUkeire m15Hand).tiles ≠ [] := by
  constructor
  · decide
  · have hc := calculateUkeireWithMelds_char m15Hand 0
    unfold calculateUkeire
    rw [hc]
    dsimp only
    intro hnil
    rw [List.map_eq_nil_iff] at hnil
    have h8 : (8 : Nat) ∈ (List.range 34).filter (ukeireAccepts m15Hand 0) :=
      List.mem_filter.mpr ⟨by decide, by decide⟩
    rw [hnil] at h8
    exact absurd h8 (List.not_mem_nil 8)

set_option maxHeartbeats 400000 in
/-- C9 witness: the amended characterization applied to the concrete
15-tile hand. -/
theorem C9_ukeire_amended_witness :
    (calculateUkeireWithMelds m15Hand 0).shanten =
      (calculateShantenWithMelds m15Hand 0).shanten ∧
    (calculateUkeireWithMelds m15Hand 0).tiles =
      ((List.range 34).filter (ukeireAccepts m15Hand 0)).map
        (fun idx => UkeireTile.mk (indexToTile idx) (4 - cget m15Hand idx)) ∧
    (calculateUkeireWithMelds m15Hand 0).totalCount =
      ((calculateUkeireWithMelds m15Hand 0).tiles.map (fun u => u.available)).sum ∧
    (m15Hand.sum ≤ 14 → (calculateShantenWithMelds m15Hand 0).shanten = -1 →
      (calculateUkeireWithMelds m15Hand 0).tiles = []) :=
  C9_ukeire_amended m15Hand 0 (by decide)

end Agari
